import Mathlib

/-!
# tranzo: the validation engine (`utils/validation.go`, `utils/validator.go`)

A shallow embedding of the validation engine and of `models.Details.Validate`.

* Go values of static type `interface{}` are the inductive type `utils.Value`, one
  constructor per dynamic type the checks distinguish.
* Objects reached through Go pointers live in an explicit heap `utils.Mem`:
  `*ValidationError` and `*ValidationResult` are addresses (indices) into it, `nil` is
  `none`, and `&T{...}` allocates at the next free address.
* A method with receiver `v *Validation` takes the context it points to and returns the
  updated one next to the updated heap.
* A run-time panic (failed type assertion, nil dereference) is `none`; so is the use of
  an address the heap does not hold, which no Go program can produce.
* `runtime.Caller(2)` is the parameter `site`; `log.Println` is not modelled.
* A Go `string` is a `String` (a sequence of Unicode characters) and `len` is its UTF-8
  size; a Go `int` is an `Int`, the checks only compare it.
-/

namespace utils

/-! ## Go library functions used by the checks -/

/-- Go map, as an association list with pairwise distinct keys in insertion order. -/
abbrev GoMap (κ ν : Type) := List (κ × ν)

/-- Map assignment `m[k] = x`: overwrites the entry of `k`, or adds one. -/
def GoMap.assign {κ ν : Type} [BEq κ] (m : GoMap κ ν) (k : κ) (x : ν) : GoMap κ ν :=
  if (m.lookup k).isSome then m.map (fun p => if p.1 == k then (p.1, x) else p)
  else m ++ [(k, x)]

/-- Go's `unicode.IsSpace`: the code points with the Unicode White_Space property. -/
def isSpace (c : Char) : Bool :=
  let n := c.toNat
  n == 0x09 || n == 0x0A || n == 0x0B || n == 0x0C || n == 0x0D || n == 0x20
    || n == 0x85 || n == 0xA0 || n == 0x1680 || (0x2000 ≤ n && n ≤ 0x200A)
    || n == 0x2028 || n == 0x2029 || n == 0x202F || n == 0x205F || n == 0x3000

/-- Go's `strings.TrimSpace`: the string without its leading and trailing white space. -/
def TrimSpace (s : String) : String :=
  ⟨((s.data.dropWhile isSpace).reverse.dropWhile isSpace).reverse⟩

/-- Go's builtin `len` on a string: its length in bytes (UTF-8). -/
def len (s : String) : Int := s.utf8ByteSize

/-- Go's `fmt.Sprintln` on operands already rendered with `%v`: the operands separated
by single spaces, followed by a newline. -/
def Sprintln (operands : List String) : String :=
  " ".intercalate operands ++ "\n"

/-! ## Dynamic values -/

/-- Go's `time.Time`, reduced to the two fields `IsZero` reads. -/
structure Time where
  sec : Int
  nsec : Int

/-- Reports `t.IsZero()`: the zero instant, January 1, year 1, 00:00:00 UTC. -/
def Time.IsZero (t : Time) : Bool := t.sec == 0 && t.nsec == 0

/-- A Go value of static type `interface{}`, by dynamic type. -/
inductive Value where
  /-- The nil interface value. -/
  | nil
  /-- Dynamic type `string`. -/
  | str (s : String)
  /-- Dynamic type `bool`. -/
  | bool (b : Bool)
  /-- Dynamic type `int`. -/
  | int (n : Int)
  /-- Dynamic type `float64`, by its IEEE 754 bit pattern. -/
  | float64 (bits : Nat)
  /-- Dynamic type `bson.ObjectId` (a string type), by its raw bytes. -/
  | objectId (raw : String)
  /-- Dynamic type `time.Time`. -/
  | time (t : Time)
  /-- A value whose `reflect.Kind` is `Slice`. -/
  | slice (elems : List Value)
  /-- Any other dynamic type (`int64`, `uint`, `float32`, structs, maps, ...), by type
  name, with the numeric value when it has one. -/
  | other (typeName : String) (num : Option Int)

/-- Float comparison `f != 0.0` on the bit pattern: only `+0` and `-0` equal zero. -/
def float64NonZero (bits : Nat) : Bool :=
  !(bits % 2 ^ 63 == 0)

/-! ## Checks (`validator.go`) -/

/-- The interface `Validator`; `IsSatisfied` is `none` when the call panics. -/
structure Validator where
  IsSatisfied : Value → Option Bool
  DefaultMessage : String

structure Required where

def Required.IsSatisfied (_r : Required) (obj : Value) : Bool :=
  match obj with
  | .nil => false
  | .str s => decide (len (TrimSpace s) > 0)
  | .bool b => b
  | .int i => decide (i ≠ 0)
  | .float64 bits => float64NonZero bits
  | .objectId raw => decide (raw ≠ "")
  | .time t => !t.IsZero
  | .slice elems => decide (elems.length > 0)
  | .other _ _ => true

def Required.DefaultMessage (_r : Required) : String := "Required"

set_option linter.dupNamespace false in
structure Min where
  Min : Int

def Min.IsSatisfied (m : utils.Min) (obj : Value) : Bool :=
  match obj with
  | .int num => decide (num ≥ m.Min)
  | _ => false

def Min.DefaultMessage (m : utils.Min) : String := Sprintln ["Minimum is", toString m.Min]

set_option linter.dupNamespace false in
structure Max where
  Max : Int

def Max.IsSatisfied (m : utils.Max) (obj : Value) : Bool :=
  match obj with
  | .int num => decide (num ≤ m.Max)
  | _ => false

def Max.DefaultMessage (m : utils.Max) : String := Sprintln ["Maximum is", toString m.Max]

/-- Requires an integer to be within Min, Max inclusive. -/
structure Range where
  Min : Min
  Max : Max

def Range.IsSatisfied (r : Range) (obj : Value) : Bool :=
  r.Min.IsSatisfied obj && r.Max.IsSatisfied obj

def Range.DefaultMessage (r : Range) : String :=
  Sprintln ["Range is", toString r.Min.Min, "to", toString r.Max.Max]

/-- Requires an array or string to be at least a given length. -/
structure MinSize where
  Min : Int

def MinSize.IsSatisfied (m : MinSize) (obj : Value) : Bool :=
  match obj with
  | .str s => decide (len s ≥ m.Min)
  | .slice elems => decide ((elems.length : Int) ≥ m.Min)
  | _ => false

def MinSize.DefaultMessage (m : MinSize) : String :=
  Sprintln ["Minimum size is", toString m.Min]

/-- Requires an array or string to be at most a given length. -/
structure MaxSize where
  Max : Int

def MaxSize.IsSatisfied (m : MaxSize) (obj : Value) : Bool :=
  match obj with
  | .str s => decide (len s ≤ m.Max)
  | .slice elems => decide ((elems.length : Int) ≤ m.Max)
  | _ => false

def MaxSize.DefaultMessage (m : MaxSize) : String :=
  Sprintln ["Maximum size is", toString m.Max]

/-- Requires an array or string to be exactly a given length. -/
structure Length where
  N : Int

def Length.IsSatisfied (s : Length) (obj : Value) : Bool :=
  match obj with
  | .str str => decide (len (TrimSpace str) = s.N)
  | .slice elems => decide ((elems.length : Int) = s.N)
  | _ => false

def Length.DefaultMessage (s : Length) : String :=
  Sprintln ["Required length is", toString s.N]

/-- Go's `*regexp.Regexp` when not nil, a compiled pattern: its source text and what
`MatchString` reports on each string. -/
structure Regexp where
  source : String
  MatchString : String → Bool

/-- Requires a string to match a given regex; the field is a pointer, `none` when nil. -/
structure Match where
  Regexp : Option Regexp

/-- The unchecked type assertion `obj.(string)` panics on any other dynamic type, and so
does `MatchString` on a nil pointer. -/
def Match.IsSatisfied (m : Match) (obj : Value) : Option Bool :=
  match obj with
  | .str str =>
    match m.Regexp with
    | none => none
    | some re => some (re.MatchString str)
  | _ => none

def Match.DefaultMessage (m : Match) : String :=
  Sprintln ["Must match", match m.Regexp with | some re => re.source | none => "<nil>"]

structure Email where
  Match : Match

/-- The method `IsSatisfied` of the embedded `Match`, promoted to `Email`. -/
def Email.IsSatisfied (e : Email) (obj : Value) : Option Bool :=
  e.Match.IsSatisfied obj

def Email.DefaultMessage (_e : Email) : String :=
  Sprintln ["Must be a valid email address"]

/-- `ValidEmail`, the package variable `emailPattern` being the parameter. -/
def ValidEmail (emailPattern : Regexp) : Email :=
  ⟨⟨some emailPattern⟩⟩

/-! Each check type as a value of the interface. -/

def Required.toValidator (r : Required) : Validator :=
  ⟨fun obj => some (r.IsSatisfied obj), r.DefaultMessage⟩

def Min.toValidator (m : utils.Min) : Validator :=
  ⟨fun obj => some (m.IsSatisfied obj), m.DefaultMessage⟩

def Max.toValidator (m : utils.Max) : Validator :=
  ⟨fun obj => some (m.IsSatisfied obj), m.DefaultMessage⟩

def Range.toValidator (r : Range) : Validator :=
  ⟨fun obj => some (r.IsSatisfied obj), r.DefaultMessage⟩

def MinSize.toValidator (m : MinSize) : Validator :=
  ⟨fun obj => some (m.IsSatisfied obj), m.DefaultMessage⟩

def MaxSize.toValidator (m : MaxSize) : Validator :=
  ⟨fun obj => some (m.IsSatisfied obj), m.DefaultMessage⟩

def Length.toValidator (s : Length) : Validator :=
  ⟨fun obj => some (s.IsSatisfied obj), s.DefaultMessage⟩

def Match.toValidator (m : Match) : Validator :=
  ⟨fun obj => m.IsSatisfied obj, m.DefaultMessage⟩

def Email.toValidator (e : Email) : Validator :=
  ⟨fun obj => e.IsSatisfied obj, e.DefaultMessage⟩

/-! ## The validation context (`validation.go`) -/

/-- Simple struct to store the Message and Key of a validation error. -/
structure ValidationError where
  Message : String
  Key : String
  deriving DecidableEq, Repr

/-- A heap address. -/
abbrev Addr := Nat

/-- A ValidationResult: a pointer to the error (if any) and the success flag. -/
structure ValidationResult where
  Error : Option Addr
  Ok : Bool
  deriving DecidableEq, Repr

/-- The heap: the `ValidationError` and `ValidationResult` objects allocated so far,
each at its index. -/
structure Mem where
  errors : List ValidationError
  results : List ValidationResult
  deriving DecidableEq, Repr

/-- A Validation context: the recorded errors, as pointers, and the keep flag. -/
structure Validation where
  Errors : List Addr
  keep : Bool
  deriving DecidableEq, Repr

/-- A call site as `runtime.Caller` and `runtime.FuncForPC` report it: the name of the
enclosing function and the line. -/
abbrev CallSite := String × Int

/-- What the engine takes from its surroundings: the package variable
`DefaultValidationKeys` (function name to line to key) and `fmt.Sprintf`. -/
structure Env where
  DefaultValidationKeys : GoMap String (GoMap Int String)
  Sprintf : String → List Value → String

def Validation.Keep (v : Validation) : Validation :=
  { v with keep := true }

/-- Clear *all* ValidationErrors. -/
def Validation.Clear (v : Validation) : Validation :=
  { v with Errors := [] }

/-- HasErrors returns true if there are any (ie > 0) errors. False otherwise. -/
def Validation.HasErrors (v : Validation) : Bool :=
  decide (v.Errors.length > 0)

/-- The loop of `ErrorMap` over the remaining errors, `acc` being the map so far. -/
def Validation.ErrorMap.loop (m : Mem) :
    List Addr → GoMap String String → Option (GoMap String String)
  | [], acc => some acc
  | e :: rest, acc =>
    match m.errors[e]? with
    | none => none
    | some err =>
      match acc.lookup err.Key with
      | some _ => loop m rest acc
      | none => loop m rest (acc.assign err.Key err.Message)

/-- ErrorMap returns the errors mapped by key; the first error of a key wins. -/
def Validation.ErrorMap (v : Validation) (m : Mem) :
    Option (GoMap String String × Validation × Mem) :=
  match Validation.ErrorMap.loop m v.Errors [] with
  | none => none
  | some mp => some (mp, v, m)

/-- Key sets the ValidationResult's Error "key" and returns itself for chaining. -/
def ValidationResult.Key (r : Option Addr) (key : String) (m : Mem) :
    Option (Option Addr × Mem) :=
  match r with
  | none => none
  | some ra =>
    match m.results[ra]? with
    | none => none
    | some res =>
      match res.Error with
      | none => some (r, m)
      | some e =>
        match m.errors[e]? with
        | none => none
        | some err => some (r, { m with errors := m.errors.set e { err with Key := key } })

/-- Message sets the error message for a ValidationResult and returns itself;
`Sprintf`-style when arguments are given. -/
def ValidationResult.Message (env : Env) (r : Option Addr) (message : String)
    (args : List Value) (m : Mem) : Option (Option Addr × Mem) :=
  match r with
  | none => none
  | some ra =>
    match m.results[ra]? with
    | none => none
    | some res =>
      match res.Error with
      | none => some (r, m)
      | some e =>
        match m.errors[e]? with
        | none => none
        | some err =>
          if args.length == 0 then
            some (r, { m with errors := m.errors.set e { err with Message := message } })
          else
            let formatted := env.Sprintf message args
            some (r, { m with errors := m.errors.set e { err with Message := formatted } })

/-- Error adds an error to the validation context. -/
def Validation.Error (env : Env) (v : Validation) (message : String) (args : List Value)
    (m : Mem) : Option (Option Addr × Validation × Mem) :=
  let e := m.errors.length
  let ra := m.results.length
  let m1 : Mem := { errors := m.errors ++ [⟨"", ""⟩], results := m.results ++ [⟨some e, false⟩] }
  match ValidationResult.Message env (some ra) message args m1 with
  | none => none
  | some (result, m2) =>
    -- `result.Error`: `Message` returned the result allocated above, which has an error.
    match result with
    | none => none
    | some rb =>
      match m2.results[rb]? with
      | none => none
      | some res =>
        match res.Error with
        | none => none
        | some err => some (result, { v with Errors := v.Errors ++ [err] }, m2)

/-- The default key of `apply`: the table entry of the call site two frames up, the
empty string when the caller is unknown or the table has no entry for it. -/
def defaultKey (env : Env) (site : Option CallSite) : String :=
  match site with
  | some (fname, line) =>
    match env.DefaultValidationKeys.lookup fname with
    | some defaultKeys => (defaultKeys.lookup line).getD ""
    | none => ""
  | none => ""

def Validation.apply (env : Env) (site : Option CallSite) (v : Validation) (chk : Validator)
    (obj : Value) (m : Mem) : Option (Option Addr × Validation × Mem) :=
  match chk.IsSatisfied obj with
  | none => none
  | some true =>
    some (some m.results.length, v, { m with results := m.results ++ [⟨none, true⟩] })
  | some false =>
    -- Get the default key.
    let key := defaultKey env site
    -- Add the error to the validation context.
    let err := m.errors.length
    let m1 : Mem := { m with errors := m.errors ++ [⟨chk.DefaultMessage, key⟩] }
    let v1 : Validation := { v with Errors := v.Errors ++ [err] }
    -- Also return it in the result.
    some (some m1.results.length, v1, { m1 with results := m1.results ++ [⟨some err, false⟩] })

/-- Required tests that the argument is non-nil and non-empty (if string or list). -/
def Validation.Required (env : Env) (site : Option CallSite) (v : Validation) (obj : Value)
    (m : Mem) : Option (Option Addr × Validation × Mem) :=
  v.apply env site (Required.mk).toValidator obj m

def Validation.Min (env : Env) (site : Option CallSite) (v : Validation) (n : Int) (min : Int)
    (m : Mem) : Option (Option Addr × Validation × Mem) :=
  v.apply env site (Min.mk min).toValidator (.int n) m

def Validation.Max (env : Env) (site : Option CallSite) (v : Validation) (n : Int) (max : Int)
    (m : Mem) : Option (Option Addr × Validation × Mem) :=
  v.apply env site (Max.mk max).toValidator (.int n) m

def Validation.Range (env : Env) (site : Option CallSite) (v : Validation) (n min max : Int)
    (m : Mem) : Option (Option Addr × Validation × Mem) :=
  v.apply env site (Range.mk (Min.mk min) (Max.mk max)).toValidator (.int n) m

def Validation.MinSize (env : Env) (site : Option CallSite) (v : Validation) (obj : Value)
    (min : Int) (m : Mem) : Option (Option Addr × Validation × Mem) :=
  v.apply env site (MinSize.mk min).toValidator obj m

def Validation.MaxSize (env : Env) (site : Option CallSite) (v : Validation) (obj : Value)
    (max : Int) (m : Mem) : Option (Option Addr × Validation × Mem) :=
  v.apply env site (MaxSize.mk max).toValidator obj m

def Validation.Length (env : Env) (site : Option CallSite) (v : Validation) (obj : Value)
    (n : Int) (m : Mem) : Option (Option Addr × Validation × Mem) :=
  v.apply env site (Length.mk n).toValidator obj m

def Validation.Match (env : Env) (site : Option CallSite) (v : Validation) (str : String)
    (regex : Option Regexp) (m : Mem) : Option (Option Addr × Validation × Mem) :=
  v.apply env site (Match.mk regex).toValidator (.str str) m

/-- The method `Email`, the package variable `emailPattern` being a parameter. -/
def Validation.Email (emailPattern : Regexp) (env : Env) (site : Option CallSite)
    (v : Validation) (str : String) (m : Mem) : Option (Option Addr × Validation × Mem) :=
  v.apply env site (Email.mk (Match.mk (some emailPattern))).toValidator (.str str) m

/-- The loop of `Check` over the remaining checks, `result` being the local variable. -/
def Validation.Check.loop (env : Env) (site : Option CallSite) (obj : Value) :
    List Validator → Option Addr → Validation → Mem → Option (Option Addr × Validation × Mem)
  | [], result, v, m => some (result, v, m)
  | check :: rest, _, v, m =>
    match v.apply env site check obj m with
    | none => none
    | some (result, v1, m1) =>
      match result with
      | none => none
      | some ra =>
        match m1.results[ra]? with
        | none => none
        | some res =>
          if !res.Ok then some (result, v1, m1)
          else loop env site obj rest result v1 m1

/-- Apply a group of validators to a field, in order, and return the ValidationResult
from the first one that fails, or the last one that succeeds. -/
def Validation.Check (env : Env) (site : Option CallSite) (v : Validation) (obj : Value)
    (checks : List Validator) (m : Mem) : Option (Option Addr × Validation × Mem) :=
  Validation.Check.loop env site obj checks none v m

/-! ## `strings.go` -/

/-- The scan of `strings.Replace` for a non-empty `old`: `skip` characters of a match
just replaced are passed over, then each leftmost occurrence of `old` is replaced. -/
def Replace.scan (old new : List Char) : Nat → List Char → List Char
  | _, [] => []
  | skip + 1, _ :: cs => Replace.scan old new skip cs
  | 0, c :: cs =>
    if old.isPrefixOf (c :: cs) then new ++ Replace.scan old new (old.length - 1) cs
    else c :: Replace.scan old new 0 cs

/-- Go's `strings.Replace(s, old, new, -1)`: every non-overlapping occurrence of `old`
replaced by `new`; an empty `old` matches before each character and at the end. -/
def Replace (s old new : String) : String :=
  if old = new then s
  else if old.data = [] then ⟨new.data ++ s.data.flatMap (fun c => c :: new.data)⟩
  else ⟨Replace.scan old.data new.data 0 s.data⟩

def specialChars : List String := ["\\", "+", "*", "$", "(", ")", "^", "]", "[", "?", "."]

def AddEscapeString (target : String) : String :=
  specialChars.foldl (fun target sc => Replace target sc ("\\" ++ sc)) target

/-- The characters the single pass escapes: the backslash, `+ * $ ( ) ^ ] [ ?` and the
dot. -/
def escapedChars : List Char := "\\+*$()^][?.".data

/-- The single pass over `t`: one backslash inserted immediately before each
occurrence of a character of `escapedChars`, every other character copied unchanged. -/
def escapeSinglePass (t : String) : String :=
  ⟨t.data.flatMap (fun c => if c ∈ escapedChars then [Char.ofNat 92, c] else [c])⟩

end utils

namespace models

open utils

structure Details where
  Id : String
  Name : String
  Age : String
  Gender : String

/-- The call site of `v.Required(d.Name)` in `Details.Validate`. -/
def Details.Validate.site : CallSite := ("tranzo/models.(*Details).Validate", 20)

def Details.Validate (env : Env) (d : Details) (m : Mem) :
    Option ((Bool × GoMap String String) × Mem) :=
  let v : Validation := { Errors := [], keep := false }
  match v.Required env (some Details.Validate.site) (.str d.Name) m with
  | none => none
  | some (r1, v1, m1) =>
    match ValidationResult.Key r1 "name" m1 with
    | none => none
    | some (r2, m2) =>
      match ValidationResult.Message env r2 "Name is missing" [] m2 with
      | none => none
      | some (_, m3) =>
        let hasErrors := v1.HasErrors
        match v1.ErrorMap m3 with
        | none => none
        | some (errorMap, _, m4) => some ((hasErrors, errorMap), m4)

end models

namespace utils

/-! ## Clients of the context, for the statements below -/

/-- One call of a convenience method of the context, with its arguments. -/
inductive Call where
  | Required (obj : Value)
  | Min (n min : Int)
  | Max (n max : Int)
  | Range (n min max : Int)
  | MinSize (obj : Value) (min : Int)
  | MaxSize (obj : Value) (max : Int)
  | Length (obj : Value) (n : Int)

/-- Performs the call on the context `v`. -/
def Call.run (env : Env) (site : Option CallSite) (v : Validation) :
    Call → Mem → Option (Option Addr × Validation × Mem)
  | .Required obj => v.Required env site obj
  | .Min n min => v.Min env site n min
  | .Max n max => v.Max env site n max
  | .Range n min max => v.Range env site n min max
  | .MinSize obj min => v.MinSize env site obj min
  | .MaxSize obj max => v.MaxSize env site obj max
  | .Length obj n => v.Length env site obj n

/-- Whether the check the call constructs is satisfied by the value the call passes. -/
def Call.satisfied : Call → Bool
  | .Required obj => (Required.mk).IsSatisfied obj
  | .Min n min => (utils.Min.mk min).IsSatisfied (.int n)
  | .Max n max => (utils.Max.mk max).IsSatisfied (.int n)
  | .Range n min max => (utils.Range.mk (utils.Min.mk min) (utils.Max.mk max)).IsSatisfied (.int n)
  | .MinSize obj min => (utils.MinSize.mk min).IsSatisfied obj
  | .MaxSize obj max => (utils.MaxSize.mk max).IsSatisfied obj
  | .Length obj n => (utils.Length.mk n).IsSatisfied obj

/-- The default message of the check the call constructs. -/
def Call.message : Call → String
  | .Required _ => (Required.mk).DefaultMessage
  | .Min _ min => (utils.Min.mk min).DefaultMessage
  | .Max _ max => (utils.Max.mk max).DefaultMessage
  | .Range _ min max => (utils.Range.mk (utils.Min.mk min) (utils.Max.mk max)).DefaultMessage
  | .MinSize _ min => (utils.MinSize.mk min).DefaultMessage
  | .MaxSize _ max => (utils.MaxSize.mk max).DefaultMessage
  | .Length _ n => (utils.Length.mk n).DefaultMessage

/-- A client making the given calls one after the other, each from its own call site,
and dropping the results. -/
def runCalls (env : Env) :
    List (Option CallSite × Call) → Validation → Mem → Option (Validation × Mem)
  | [], v, m => some (v, m)
  | (site, c) :: rest, v, m =>
    match c.run env site v m with
    | none => none
    | some (_, v1, m1) => runCalls env rest v1 m1

/-- The errors a context holds: its pointers, dereferenced in order. -/
def Validation.deref (v : Validation) (m : Mem) : List (Option ValidationError) :=
  v.Errors.map (fun a => m.errors[a]?)

/-- An environment with an empty key table, for concrete evaluations. -/
def Env.empty : Env := ⟨[], fun message _ => message⟩

/-- An environment whose key table names the argument at line 7 of `main.f`. -/
def Env.sample : Env := ⟨[("main.f", [(7, "age")])], fun message _ => message⟩

/-- An environment whose `Sprintf` is visibly not the identity on the format string. -/
def Env.marking : Env := ⟨[], fun message _ => "formatted:" ++ message⟩

/-- A compiled pattern for concrete evaluations: `^a`, matching the strings that start
with the letter a. -/
def Regexp.sample : Regexp := ⟨"^a", fun str => str.data.head? == some (Char.ofNat 97)⟩

/-! ## Helper lemmas -/

theorem apply_of_true (env : Env) (site : Option CallSite) (v : Validation) (chk : Validator)
    (obj : Value) (m : Mem) (h : chk.IsSatisfied obj = some true) :
    v.apply env site chk obj m
      = some (some m.results.length, v, { m with results := m.results ++ [⟨none, true⟩] }) := by
  simp [Validation.apply, h]

theorem apply_of_false (env : Env) (site : Option CallSite) (v : Validation) (chk : Validator)
    (obj : Value) (m : Mem) (h : chk.IsSatisfied obj = some false) :
    v.apply env site chk obj m
      = some (some m.results.length, { v with Errors := v.Errors ++ [m.errors.length] },
          { errors := m.errors ++ [⟨chk.DefaultMessage, defaultKey env site⟩],
            results := m.results ++ [⟨some m.errors.length, false⟩] }) := by
  simp [Validation.apply, h]

theorem Call.run_eq_apply (env : Env) (site : Option CallSite) (v : Validation) (c : Call)
    (m : Mem) :
    ∃ chk obj, c.run env site v m = v.apply env site chk obj m
      ∧ chk.IsSatisfied obj = some c.satisfied ∧ chk.DefaultMessage = c.message := by
  cases c <;> exact ⟨_, _, rfl, rfl, rfl⟩

/-- While the checks are satisfied the loop of `Check` only allocates successful results. -/
theorem Check.loop_satisfied (env : Env) (site : Option CallSite) (obj : Value)
    (pre rest : List Validator) (hpre : ∀ p ∈ pre, p.IsSatisfied obj = some true) :
    ∀ (result : Option Addr) (v : Validation) (m : Mem),
      Validation.Check.loop env site obj (pre ++ rest) result v m
        = Validation.Check.loop env site obj rest
            (if pre.length = 0 then result else some (m.results.length + pre.length - 1)) v
            { m with results := m.results ++ List.replicate pre.length ⟨none, true⟩ } := by
  induction pre with
  | nil => intro result v m; simp
  | cons p pre ih =>
    intro result v m
    have hp : p.IsSatisfied obj = some true := hpre p (List.mem_cons_self _ _)
    have hrest : ∀ q ∈ pre, q.IsSatisfied obj = some true :=
      fun q hq => hpre q (List.mem_cons_of_mem _ hq)
    simp only [List.cons_append, Validation.Check.loop, apply_of_true env site v p obj m hp]
    simp only [List.getElem?_concat_length, Bool.not_true, Bool.false_eq_true, if_false,
      List.append_eq]
    rw [ih hrest]
    congr 1
    · cases pre with
      | nil => simp
      | cons q qs =>
        simp
        ac_rfl
    · simp [List.replicate_succ, List.append_assoc]

/-- Assigning a key the map does not hold adds it and leaves the other keys alone. -/
theorem GoMap.lookup_assign_of_none (acc : GoMap String String) (k0 x k : String)
    (h : acc.lookup k0 = none) :
    (acc.assign k0 x).lookup k = (acc.lookup k).or (if k == k0 then some x else none) := by
  unfold GoMap.assign
  rw [h]
  simp only [Option.isSome_none, Bool.false_eq_true, if_false]
  rw [List.lookup_append]
  congr 1
  simp only [List.lookup_cons, List.lookup_nil]
  split <;> simp_all

/-- The loop of `ErrorMap` on valid pointers ends, and in its map every key has the value
the accumulator gave it, else the message of the first remaining error with that key. -/
theorem ErrorMap.loop_lookup (m : Mem) :
    ∀ (es : List Addr) (errs : List ValidationError) (acc : GoMap String String),
      es.map (fun a => m.errors[a]?) = errs.map some →
      ∃ mp, Validation.ErrorMap.loop m es acc = some mp
        ∧ ∀ k, mp.lookup k
            = (acc.lookup k).or ((errs.find? (fun x => x.Key == k)).map (fun x => x.Message)) := by
  intro es
  induction es with
  | nil =>
    intro errs acc h
    cases errs with
    | nil => exact ⟨acc, rfl, by simp⟩
    | cons x xs => simp at h
  | cons a es ih =>
    intro errs acc h
    cases errs with
    | nil => simp at h
    | cons x xs =>
      simp only [List.map_cons, List.cons.injEq] at h
      obtain ⟨ha, hrest⟩ := h
      simp only [Validation.ErrorMap.loop, ha]
      cases hacc : acc.lookup x.Key with
      | some y =>
        obtain ⟨mp, hmp, hlook⟩ := ih xs acc hrest
        refine ⟨mp, hmp, ?_⟩
        intro k
        rw [hlook k]
        by_cases hk : x.Key = k
        · subst hk; simp [hacc]
        · have : (x.Key == k) = false := by simpa using hk
          simp [List.find?_cons, this]
      | none =>
        obtain ⟨mp, hmp, hlook⟩ := ih xs (acc.assign x.Key x.Message) hrest
        refine ⟨mp, hmp, ?_⟩
        intro k
        rw [hlook k, GoMap.lookup_assign_of_none acc x.Key x.Message k hacc]
        by_cases hk : x.Key = k
        · subst hk; simp [hacc]
        · have h1 : (x.Key == k) = false := by simpa using hk
          have h2 : (k == x.Key) = false := by simpa using fun h => hk h.symm
          simp [List.find?_cons, h1, h2]

/-- The loop of `ErrorMap` over a concatenation runs over the parts in turn. -/
theorem ErrorMap.loop_append (m : Mem) (fs : List Addr) :
    ∀ (es : List Addr) (acc : GoMap String String),
      Validation.ErrorMap.loop m (es ++ fs) acc
        = (Validation.ErrorMap.loop m es acc).bind (Validation.ErrorMap.loop m fs) := by
  intro es
  induction es with
  | nil => intro acc; rfl
  | cons a es ih =>
    intro acc
    simp only [List.cons_append, Validation.ErrorMap.loop]
    cases m.errors[a]? with
    | none => rfl
    | some err =>
      simp only
      cases acc.lookup err.Key with
      | some y => exact ih acc
      | none => exact ih _

/-- Allocating one more error does not change what valid pointers refer to. -/
theorem deref_after_alloc (es : List Addr) (errors : List ValidationError)
    (errs0 : List ValidationError) (x : ValidationError)
    (h : es.map (fun a => errors[a]?) = errs0.map some) :
    es.map (fun a => (errors ++ [x])[a]?) = errs0.map some := by
  rw [← h]
  apply List.map_congr_left
  intro a ha
  have hmem : errors[a]? ∈ errs0.map some := by
    rw [← h]; exact List.mem_map_of_mem _ ha
  obtain ⟨e, -, he⟩ := List.mem_map.mp hmem
  have hlt : a < errors.length := by
    by_contra hge
    rw [List.getElem?_eq_none (Nat.le_of_not_lt hge)] at he
    cases he
  exact List.getElem?_append_left hlt

/-- A sequence of convenience calls on a context with valid pointers runs to the end and
adds, in call order, one error for each call whose check is not satisfied. -/
theorem runCalls_collects (env : Env) :
    ∀ (calls : List (Option CallSite × Call)) (v : Validation) (m : Mem)
      (errs0 : List ValidationError),
      v.deref m = errs0.map some →
      ∃ v1 m1, runCalls env calls v m = some (v1, m1)
        ∧ v1.deref m1 = (errs0 ++ (calls.filter (fun sc => !sc.2.satisfied)).map
            (fun sc => (⟨sc.2.message, defaultKey env sc.1⟩ : ValidationError))).map some
        ∧ m1.errors = m.errors ++ (calls.filter (fun sc => !sc.2.satisfied)).map
            (fun sc => (⟨sc.2.message, defaultKey env sc.1⟩ : ValidationError))
        ∧ v1.keep = v.keep := by
  intro calls
  induction calls with
  | nil =>
    intro v m errs0 h
    exact ⟨v, m, rfl, by simpa using h, by simp, rfl⟩
  | cons sc calls ih =>
    intro v m errs0 h
    obtain ⟨site, c⟩ := sc
    obtain ⟨chk, obj, hrun, hsat, hmsg⟩ := Call.run_eq_apply env site v c m
    cases hc : c.satisfied with
    | true =>
      rw [hc] at hsat
      obtain ⟨v1, m1, h1, h2, h3, h4⟩ :=
        ih v { m with results := m.results ++ [⟨none, true⟩] } errs0 h
      refine ⟨v1, m1, ?_, ?_, ?_, h4⟩
      · simp only [runCalls, hrun, apply_of_true env site v chk obj m hsat]
        exact h1
      · simpa [List.filter_cons, hc] using h2
      · simpa [List.filter_cons, hc] using h3
    | false =>
      rw [hc] at hsat
      have hstep : Validation.deref { v with Errors := v.Errors ++ [m.errors.length] }
          { errors := m.errors ++ [⟨chk.DefaultMessage, defaultKey env site⟩],
            results := m.results ++ [⟨some m.errors.length, false⟩] }
          = (errs0 ++ [(⟨chk.DefaultMessage, defaultKey env site⟩ : ValidationError)]).map
              some := by
        unfold Validation.deref at h ⊢
        simp only [List.map_append, List.map_cons, List.map_nil,
          List.getElem?_concat_length]
        rw [deref_after_alloc v.Errors m.errors errs0
          (⟨chk.DefaultMessage, defaultKey env site⟩ : ValidationError) h]
      obtain ⟨v1, m1, h1, h2, h3, h4⟩ := ih _ _ _ hstep
      refine ⟨v1, m1, ?_, ?_, ?_, h4⟩
      · simp only [runCalls, hrun, apply_of_false env site v chk obj m hsat]
        exact h1
      · simpa [List.filter_cons, hc, hmsg] using h2
      · simpa [List.filter_cons, hc, hmsg] using h3

/-- Trimming leaves nothing exactly when every character is white space. -/
theorem TrimSpace_data_eq_nil_iff (s : String) :
    (TrimSpace s).data = [] ↔ s.data.all isSpace = true := by
  unfold TrimSpace
  simp only
  rw [List.reverse_eq_nil_iff, List.dropWhile_eq_nil_iff]
  constructor
  · intro h
    rw [List.all_eq_true]
    have hd : s.data.dropWhile isSpace = [] := by
      cases hdw : s.data.dropWhile isSpace with
      | nil => rfl
      | cons x xs =>
        have hx : isSpace x = true := h x (by simp [hdw])
        have := List.head_dropWhile_not isSpace s.data (by simp [hdw])
        simp [hdw, hx] at this
    exact List.dropWhile_eq_nil_iff.mp hd
  · intro h x hx
    have hd : s.data.dropWhile isSpace = [] :=
      List.dropWhile_eq_nil_iff.mpr (List.all_eq_true.mp h)
    simp [hd] at hx

/-- A string has a positive length in bytes exactly when it has a character. -/
theorem len_pos_iff (s : String) : len s > 0 ↔ s.data ≠ [] := by
  obtain ⟨l⟩ := s
  cases l with
  | nil => simp [len, String.utf8ByteSize, String.utf8ByteSize.go]
  | cons c cs =>
    simp only [len, String.utf8ByteSize, String.utf8ByteSize.go]
    have := Char.utf8Size_pos c
    simp only [gt_iff_lt, ne_eq, reduceCtorEq, not_false_eq_true, iff_true]
    omega

/-- `Required` on a string: satisfied unless the string is white space throughout. -/
theorem Required.IsSatisfied_str (r : Required) (s : String) :
    r.IsSatisfied (.str s) = !(s.data.all isSpace) := by
  have h := TrimSpace_data_eq_nil_iff s
  have h2 := len_pos_iff (TrimSpace s)
  by_cases hall : s.data.all isSpace = true
  · have : ¬ len (TrimSpace s) > 0 := by
      rw [h2]; simp [h.mpr hall]
    simp [Required.IsSatisfied, hall, this]
  · have hne : (TrimSpace s).data ≠ [] := fun hnil => hall (h.mp hnil)
    have : len (TrimSpace s) > 0 := h2.mpr hne
    simp [Required.IsSatisfied, hall, this]

/-! ## `Check` -/

/-- C1: when the checks before `c` are satisfied by `obj` and `c` is not, `Check` returns
the failing result (Ok=false) of `c`, whose error carries the default message of `c`;
exactly one error is appended to the context, and the checks after `c` play no part
(the outcome is the same whatever follows `c`). -/
theorem Check_returns_first_failure (env : Env) (site : Option CallSite) (v : Validation)
    (obj : Value) (pre : List Validator) (c : Validator) (post : List Validator) (m : Mem)
    (hpre : ∀ p ∈ pre, p.IsSatisfied obj = some true)
    (hc : c.IsSatisfied obj = some false) :
    ∃ r v1 m1,
      v.Check env site obj (pre ++ c :: post) m = some (some r, v1, m1)
      ∧ m1.results[r]? = some ⟨some m.errors.length, false⟩
      ∧ m1.errors = m.errors ++ [⟨c.DefaultMessage, defaultKey env site⟩]
      ∧ m1.errors[m.errors.length]? = some ⟨c.DefaultMessage, defaultKey env site⟩
      ∧ v1.Errors = v.Errors ++ [m.errors.length]
      ∧ v1.keep = v.keep
      ∧ ∀ others : List Validator,
          v.Check env site obj (pre ++ c :: others) m = some (some r, v1, m1) := by
  have key : ∀ others : List Validator,
      v.Check env site obj (pre ++ c :: others) m
        = some (some (m.results.length + pre.length),
            { v with Errors := v.Errors ++ [m.errors.length] },
            { errors := m.errors ++ [⟨c.DefaultMessage, defaultKey env site⟩],
              results := m.results ++ List.replicate pre.length ⟨none, true⟩
                ++ [⟨some m.errors.length, false⟩] }) := by
    intro others
    unfold Validation.Check
    rw [Check.loop_satisfied env site obj pre (c :: others) hpre]
    simp only [Validation.Check.loop, apply_of_false env site v c obj _ hc]
    simp only [List.getElem?_concat_length, Bool.not_false, if_true]
    simp only [List.length_append, List.length_replicate]
  refine ⟨_, _, _, key post, ?_, rfl, ?_, rfl, rfl, key⟩
  · have hlen : (m.results ++ List.replicate pre.length (⟨none, true⟩ : ValidationResult)).length
        = m.results.length + pre.length := by simp
    simp only [← hlen, List.getElem?_concat_length]
  · simp only [List.getElem?_concat_length]

/-- The example of C1: `Check(0, Min{1}, Max{10})` on a fresh context returns the Min
failure and records that error alone. -/
theorem Check_returns_first_failure_witness :
    (∀ p ∈ ([] : List Validator), p.IsSatisfied (.int 0) = some true)
    ∧ (utils.Min.mk 1).toValidator.IsSatisfied (.int 0) = some false
    ∧ ∃ r v1 m1,
      Validation.Check Env.empty none ⟨[], false⟩ (.int 0)
          ([] ++ (utils.Min.mk 1).toValidator :: [(utils.Max.mk 10).toValidator]) ⟨[], []⟩
        = some (some r, v1, m1)
      ∧ m1.results[r]? = some ⟨some (⟨[], []⟩ : Mem).errors.length, false⟩
      ∧ m1.errors = (⟨[], []⟩ : Mem).errors
          ++ [⟨(utils.Min.mk 1).toValidator.DefaultMessage, defaultKey Env.empty none⟩]
      ∧ m1.errors[(⟨[], []⟩ : Mem).errors.length]?
          = some ⟨(utils.Min.mk 1).toValidator.DefaultMessage, defaultKey Env.empty none⟩
      ∧ v1.Errors = (⟨[], false⟩ : Validation).Errors ++ [(⟨[], []⟩ : Mem).errors.length]
      ∧ v1.keep = (⟨[], false⟩ : Validation).keep
      ∧ ∀ others : List Validator,
          Validation.Check Env.empty none ⟨[], false⟩ (.int 0)
              ([] ++ (utils.Min.mk 1).toValidator :: others) ⟨[], []⟩
            = some (some r, v1, m1) :=
  ⟨by simp, by decide,
    Check_returns_first_failure Env.empty none ⟨[], false⟩ (.int 0) []
      (utils.Min.mk 1).toValidator [(utils.Max.mk 10).toValidator] ⟨[], []⟩ (by simp) (by decide)⟩

/-- C2: when every check of a non-empty list is satisfied by `obj`, `Check` returns the
result allocated by the application of the last check (the newest object of the heap),
which has Ok=true and no error; the context and the recorded errors are unchanged. -/
theorem Check_all_satisfied_returns_last (env : Env) (site : Option CallSite) (v : Validation)
    (obj : Value) (cs : List Validator) (m : Mem)
    (hne : cs ≠ [])
    (hall : ∀ c ∈ cs, c.IsSatisfied obj = some true) :
    ∃ r m1,
      v.Check env site obj cs m = some (some r, v, m1)
      ∧ m1.results = m.results ++ List.replicate cs.length ⟨none, true⟩
      ∧ m1.results.length = r + 1
      ∧ m1.results[r]? = some ⟨none, true⟩
      ∧ m1.errors = m.errors := by
  have hpos : 0 < cs.length := List.length_pos.mpr hne
  have hrun := Check.loop_satisfied env site obj cs [] hall none v m
  rw [List.append_nil] at hrun
  refine ⟨m.results.length + cs.length - 1,
    { m with results := m.results ++ List.replicate cs.length ⟨none, true⟩ }, ?_, rfl, ?_, ?_, rfl⟩
  · unfold Validation.Check
    rw [hrun]
    simp [Validation.Check.loop, Nat.ne_of_gt hpos]
  · simp; omega
  · obtain ⟨n, hn⟩ : ∃ n, cs.length = n + 1 := ⟨cs.length - 1, by omega⟩
    simp only [hn, List.replicate_succ', ← List.append_assoc]
    have hlen : (m.results ++ List.replicate n (⟨none, true⟩ : ValidationResult)).length
        = m.results.length + (n + 1) - 1 := by simp
    simp only [← hlen, List.getElem?_concat_length]

/-- A list of two satisfied checks: `Check(5, Min{1}, Max{10})`. -/
theorem Check_all_satisfied_returns_last_witness :
    [(utils.Min.mk 1).toValidator, (utils.Max.mk 10).toValidator] ≠ []
    ∧ (∀ c ∈ [(utils.Min.mk 1).toValidator, (utils.Max.mk 10).toValidator],
        c.IsSatisfied (.int 5) = some true)
    ∧ ∃ r m1,
      Validation.Check Env.empty none ⟨[], false⟩ (.int 5)
          [(utils.Min.mk 1).toValidator, (utils.Max.mk 10).toValidator] ⟨[], []⟩
        = some (some r, ⟨[], false⟩, m1)
      ∧ m1.results = (⟨[], []⟩ : Mem).results
          ++ List.replicate [(utils.Min.mk 1).toValidator, (utils.Max.mk 10).toValidator].length
              ⟨none, true⟩
      ∧ m1.results.length = r + 1
      ∧ m1.results[r]? = some ⟨none, true⟩
      ∧ m1.errors = (⟨[], []⟩ : Mem).errors :=
  ⟨by simp, by simp [utils.Min.toValidator, utils.Max.toValidator, utils.Min.IsSatisfied,
      utils.Max.IsSatisfied],
    Check_all_satisfied_returns_last Env.empty none ⟨[], false⟩ (.int 5)
      [(utils.Min.mk 1).toValidator, (utils.Max.mk 10).toValidator] ⟨[], []⟩ (by simp)
      (by simp [utils.Min.toValidator, utils.Max.toValidator, utils.Min.IsSatisfied,
        utils.Max.IsSatisfied])⟩

/-! ## `apply` -/

/-- C4: when `chk.IsSatisfied obj` is true, `apply` returns a new result with Ok=true and
no error and leaves the context (error list and keep flag) and every recorded error as
they were; so does each convenience method whose check is satisfied by its argument. -/
theorem apply_satisfied_records_nothing (env : Env) (site : Option CallSite) (v : Validation)
    (m : Mem) :
    (∀ (chk : Validator) (obj : Value), chk.IsSatisfied obj = some true →
      ∃ r m1, v.apply env site chk obj m = some (some r, v, m1)
        ∧ m1.results[r]? = some ⟨none, true⟩
        ∧ m1.errors = m.errors
        ∧ ∀ i, i < m.results.length → m1.results[i]? = m.results[i]?)
    ∧ (∀ c : Call, c.satisfied = true →
      ∃ r m1, c.run env site v m = some (some r, v, m1)
        ∧ m1.results[r]? = some ⟨none, true⟩
        ∧ m1.errors = m.errors
        ∧ ∀ i, i < m.results.length → m1.results[i]? = m.results[i]?) := by
  have main : ∀ (chk : Validator) (obj : Value), chk.IsSatisfied obj = some true →
      ∃ r m1, v.apply env site chk obj m = some (some r, v, m1)
        ∧ m1.results[r]? = some ⟨none, true⟩
        ∧ m1.errors = m.errors
        ∧ ∀ i, i < m.results.length → m1.results[i]? = m.results[i]? := by
    intro chk obj h
    refine ⟨m.results.length, { m with results := m.results ++ [⟨none, true⟩] },
      apply_of_true env site v chk obj m h, ?_, rfl, ?_⟩
    · simp only [List.getElem?_concat_length]
    · intro i hi
      exact List.getElem?_append_left hi
  refine ⟨main, ?_⟩
  intro c hc
  obtain ⟨chk, obj, hrun, hsat, -⟩ := Call.run_eq_apply env site v c m
  rw [hrun]
  exact main chk obj (by rw [hsat, hc])

/-- `Min{1}` applied to 5, and the call `Range(5, 1, 10)`, on a context holding one
earlier error. -/
theorem apply_satisfied_records_nothing_witness :
    ((utils.Min.mk 1).toValidator.IsSatisfied (.int 5) = some true
      ∧ ∃ r m1, Validation.apply Env.empty none ⟨[0], true⟩ (utils.Min.mk 1).toValidator (.int 5)
            ⟨[⟨"Required", "name"⟩], [⟨some 0, false⟩]⟩ = some (some r, ⟨[0], true⟩, m1)
        ∧ m1.results[r]? = some ⟨none, true⟩
        ∧ m1.errors = (⟨[⟨"Required", "name"⟩], [⟨some 0, false⟩]⟩ : Mem).errors
        ∧ ∀ i, i < (⟨[⟨"Required", "name"⟩], [⟨some 0, false⟩]⟩ : Mem).results.length →
            m1.results[i]? = (⟨[⟨"Required", "name"⟩], [⟨some 0, false⟩]⟩ : Mem).results[i]?)
    ∧ ((Call.Range 5 1 10).satisfied = true
      ∧ ∃ r m1, (Call.Range 5 1 10).run Env.empty none ⟨[0], true⟩
            ⟨[⟨"Required", "name"⟩], [⟨some 0, false⟩]⟩ = some (some r, ⟨[0], true⟩, m1)
        ∧ m1.results[r]? = some ⟨none, true⟩
        ∧ m1.errors = (⟨[⟨"Required", "name"⟩], [⟨some 0, false⟩]⟩ : Mem).errors
        ∧ ∀ i, i < (⟨[⟨"Required", "name"⟩], [⟨some 0, false⟩]⟩ : Mem).results.length →
            m1.results[i]? = (⟨[⟨"Required", "name"⟩], [⟨some 0, false⟩]⟩ : Mem).results[i]?) :=
  ⟨⟨by decide, (apply_satisfied_records_nothing Env.empty none ⟨[0], true⟩
      ⟨[⟨"Required", "name"⟩], [⟨some 0, false⟩]⟩).1 (utils.Min.mk 1).toValidator (.int 5)
      (by decide)⟩,
   ⟨by decide, (apply_satisfied_records_nothing Env.empty none ⟨[0], true⟩
      ⟨[⟨"Required", "name"⟩], [⟨some 0, false⟩]⟩).2 (Call.Range 5 1 10) (by decide)⟩⟩

/-- C5: when `chk.IsSatisfied obj` is false, `apply` appends exactly one new error to the
end of the context's list; its Message is `chk.DefaultMessage()` and its Key is the entry
of the default-key table for the call site, or the empty string when the caller is
unknown or has no entry; the earlier entries are unchanged, and the returned result has
Ok=false and points to the appended error. -/
theorem apply_unsatisfied_appends_one (env : Env) (site : Option CallSite) (v : Validation)
    (chk : Validator) (obj : Value) (m : Mem)
    (h : chk.IsSatisfied obj = some false) :
    ∃ r v1 m1 key,
      v.apply env site chk obj m = some (some r, v1, m1)
      ∧ v1.Errors = v.Errors ++ [m.errors.length]
      ∧ v1.keep = v.keep
      ∧ m1.errors = m.errors ++ [⟨chk.DefaultMessage, key⟩]
      ∧ m1.errors[m.errors.length]? = some ⟨chk.DefaultMessage, key⟩
      ∧ (∀ a, a < m.errors.length → m1.errors[a]? = m.errors[a]?)
      ∧ m1.results[r]? = some ⟨some m.errors.length, false⟩
      ∧ (∀ i, i < m.results.length → m1.results[i]? = m.results[i]?)
      ∧ (∀ fname line keys k, site = some (fname, line) →
          env.DefaultValidationKeys.lookup fname = some keys → keys.lookup line = some k →
          key = k)
      ∧ (∀ fname line keys, site = some (fname, line) →
          env.DefaultValidationKeys.lookup fname = some keys → keys.lookup line = none →
          key = "")
      ∧ (∀ fname line, site = some (fname, line) →
          env.DefaultValidationKeys.lookup fname = none → key = "")
      ∧ (site = none → key = "") := by
  refine ⟨m.results.length, _, _, defaultKey env site, apply_of_false env site v chk obj m h,
    rfl, rfl, rfl, ?_, ?_, ?_, ?_, ?_, ?_, ?_, ?_⟩
  · simp only [List.getElem?_concat_length]
  · intro a ha
    exact List.getElem?_append_left ha
  · simp only [List.getElem?_concat_length]
  · intro i hi
    exact List.getElem?_append_left hi
  · intro fname line keys k hs hf hk
    simp [defaultKey, hs, hf, hk]
  · intro fname line keys hs hf hk
    simp [defaultKey, hs, hf, hk]
  · intro fname line hs hf
    simp [defaultKey, hs, hf]
  · intro hs
    simp [defaultKey, hs]

/-- `Min{1}` applied to 0 from line 7 of `main.f`, on a context holding one earlier
error. -/
theorem apply_unsatisfied_appends_one_witness :
    (utils.Min.mk 1).toValidator.IsSatisfied (.int 0) = some false
    ∧ ∃ r v1 m1 key,
      Validation.apply Env.sample (some ("main.f", 7)) ⟨[0], false⟩ (utils.Min.mk 1).toValidator
          (.int 0) ⟨[⟨"Required", "name"⟩], [⟨some 0, false⟩]⟩ = some (some r, v1, m1)
      ∧ v1.Errors = (⟨[0], false⟩ : Validation).Errors
          ++ [(⟨[⟨"Required", "name"⟩], [⟨some 0, false⟩]⟩ : Mem).errors.length]
      ∧ v1.keep = (⟨[0], false⟩ : Validation).keep
      ∧ m1.errors = (⟨[⟨"Required", "name"⟩], [⟨some 0, false⟩]⟩ : Mem).errors
          ++ [⟨(utils.Min.mk 1).toValidator.DefaultMessage, key⟩]
      ∧ m1.errors[(⟨[⟨"Required", "name"⟩], [⟨some 0, false⟩]⟩ : Mem).errors.length]?
          = some ⟨(utils.Min.mk 1).toValidator.DefaultMessage, key⟩
      ∧ (∀ a, a < (⟨[⟨"Required", "name"⟩], [⟨some 0, false⟩]⟩ : Mem).errors.length →
          m1.errors[a]? = (⟨[⟨"Required", "name"⟩], [⟨some 0, false⟩]⟩ : Mem).errors[a]?)
      ∧ m1.results[r]?
          = some ⟨some (⟨[⟨"Required", "name"⟩], [⟨some 0, false⟩]⟩ : Mem).errors.length, false⟩
      ∧ (∀ i, i < (⟨[⟨"Required", "name"⟩], [⟨some 0, false⟩]⟩ : Mem).results.length →
          m1.results[i]? = (⟨[⟨"Required", "name"⟩], [⟨some 0, false⟩]⟩ : Mem).results[i]?)
      ∧ (∀ fname line keys k, some (("main.f", 7) : CallSite) = some (fname, line) →
          Env.sample.DefaultValidationKeys.lookup fname = some keys →
          keys.lookup line = some k → key = k)
      ∧ (∀ fname line keys, some (("main.f", 7) : CallSite) = some (fname, line) →
          Env.sample.DefaultValidationKeys.lookup fname = some keys →
          keys.lookup line = none → key = "")
      ∧ (∀ fname line, some (("main.f", 7) : CallSite) = some (fname, line) →
          Env.sample.DefaultValidationKeys.lookup fname = none → key = "")
      ∧ (some (("main.f", 7) : CallSite) = none → key = "") :=
  ⟨by decide, apply_unsatisfied_appends_one Env.sample (some ("main.f", 7)) ⟨[0], false⟩
    (utils.Min.mk 1).toValidator (.int 0) ⟨[⟨"Required", "name"⟩], [⟨some 0, false⟩]⟩
    (by decide)⟩

example : Validation.apply Env.sample (some ("main.f", 7)) ⟨[0], false⟩
    (utils.Min.mk 1).toValidator (.int 0) ⟨[⟨"Required", "name"⟩], [⟨some 0, false⟩]⟩
    = some (some 1, ⟨[0, 1], false⟩,
        ⟨[⟨"Required", "name"⟩, ⟨"Minimum is 1\n", "age"⟩], [⟨some 0, false⟩, ⟨some 1, false⟩]⟩) := by
  decide

/-! ## `ErrorMap` -/

/-- C3: when the pointers of `v.Errors` are valid and `e` is the first recorded error
whose Key is `k`, `ErrorMap` returns a map sending `k` to the Message of `e`, and leaves
the context and the heap as they were; recording one more error with key `k` after the
others gives the same map. -/
theorem ErrorMap_first_error_wins (v : Validation) (m : Mem) (k : String)
    (errs : List ValidationError) (e : ValidationError)
    (hvalid : v.deref m = errs.map some)
    (hfirst : errs.find? (fun x => x.Key == k) = some e) :
    ∃ mp, v.ErrorMap m = some (mp, v, m)
      ∧ mp.lookup k = some e.Message
      ∧ ∀ (b : Addr) (later : ValidationError), m.errors[b]? = some later → later.Key = k →
          Validation.ErrorMap { v with Errors := v.Errors ++ [b] } m
            = some (mp, { v with Errors := v.Errors ++ [b] }, m) := by
  obtain ⟨mp, hmp, hlook⟩ := ErrorMap.loop_lookup m v.Errors errs [] hvalid
  have hk : mp.lookup k = some e.Message := by
    rw [hlook k, hfirst]; simp
  refine ⟨mp, ?_, hk, ?_⟩
  · simp [Validation.ErrorMap, hmp]
  · intro b later hb hkey
    subst hkey
    simp [Validation.ErrorMap, ErrorMap.loop_append, hmp, Validation.ErrorMap.loop, hb, hk]

/-- Two recorded errors with key "name": the first message is the one in the map. -/
theorem ErrorMap_first_error_wins_witness :
    Validation.deref ⟨[0, 1], false⟩ ⟨[⟨"first", "name"⟩, ⟨"second", "name"⟩], []⟩
        = [(⟨"first", "name"⟩ : ValidationError), ⟨"second", "name"⟩].map some
    ∧ [(⟨"first", "name"⟩ : ValidationError), ⟨"second", "name"⟩].find?
          (fun x => x.Key == "name") = some ⟨"first", "name"⟩
    ∧ ∃ mp, Validation.ErrorMap ⟨[0, 1], false⟩ ⟨[⟨"first", "name"⟩, ⟨"second", "name"⟩], []⟩
          = some (mp, ⟨[0, 1], false⟩, ⟨[⟨"first", "name"⟩, ⟨"second", "name"⟩], []⟩)
      ∧ mp.lookup "name" = some (⟨"first", "name"⟩ : ValidationError).Message
      ∧ ∀ (b : Addr) (later : ValidationError),
          (⟨[⟨"first", "name"⟩, ⟨"second", "name"⟩], []⟩ : Mem).errors[b]? = some later →
          later.Key = "name" →
          Validation.ErrorMap
              { (⟨[0, 1], false⟩ : Validation) with
                Errors := (⟨[0, 1], false⟩ : Validation).Errors ++ [b] }
              ⟨[⟨"first", "name"⟩, ⟨"second", "name"⟩], []⟩
            = some (mp, { (⟨[0, 1], false⟩ : Validation) with
                Errors := (⟨[0, 1], false⟩ : Validation).Errors ++ [b] },
              ⟨[⟨"first", "name"⟩, ⟨"second", "name"⟩], []⟩) :=
  ⟨by decide, by decide,
    ErrorMap_first_error_wins ⟨[0, 1], false⟩ ⟨[⟨"first", "name"⟩, ⟨"second", "name"⟩], []⟩
      "name" [⟨"first", "name"⟩, ⟨"second", "name"⟩] ⟨"first", "name"⟩ (by decide) (by decide)⟩

example : Validation.ErrorMap ⟨[0, 1, 2], false⟩
    ⟨[⟨"first", "name"⟩, ⟨"other", ""⟩, ⟨"second", "name"⟩], []⟩
    = some ([("name", "first"), ("", "other")], ⟨[0, 1, 2], false⟩,
        ⟨[⟨"first", "name"⟩, ⟨"other", ""⟩, ⟨"second", "name"⟩], []⟩) := by
  decide

/-! ## Sequences of convenience calls -/

/-- C6: every finite sequence of calls of Required, Min, Max, Range, MinSize, MaxSize and
Length on a fresh context runs to the end, and the resulting error list holds exactly one
entry for each call whose check was not satisfied, in call order, and none for the
others; `HasErrors()` is then true iff at least one call failed. -/
theorem convenience_calls_collect_every_failure (env : Env)
    (calls : List (Option CallSite × Call)) (m : Mem) :
    ∃ v1 m1, runCalls env calls ⟨[], false⟩ m = some (v1, m1)
      ∧ v1.deref m1 = ((calls.filter (fun sc => !sc.2.satisfied)).map
          (fun sc => (⟨sc.2.message, defaultKey env sc.1⟩ : ValidationError))).map some
      ∧ m1.errors = m.errors ++ (calls.filter (fun sc => !sc.2.satisfied)).map
          (fun sc => (⟨sc.2.message, defaultKey env sc.1⟩ : ValidationError))
      ∧ (v1.HasErrors = true ↔ ∃ sc ∈ calls, sc.2.satisfied = false) := by
  obtain ⟨v1, m1, h1, h2, h3, -⟩ := runCalls_collects env calls ⟨[], false⟩ m [] rfl
  refine ⟨v1, m1, h1, by simpa using h2, h3, ?_⟩
  have hlen : v1.Errors.length = (calls.filter (fun sc => !sc.2.satisfied)).length := by
    have := congrArg List.length h2
    simpa [Validation.deref] using this
  simp only [Validation.HasErrors, hlen, decide_eq_true_eq, gt_iff_lt, List.length_pos,
    ne_eq, List.filter_eq_nil_iff, not_forall]
  constructor
  · rintro ⟨sc, hmem, hsat⟩
    exact ⟨sc, hmem, by simpa using hsat⟩
  · rintro ⟨sc, hmem, hsat⟩
    exact ⟨sc, hmem, by simp [hsat]⟩

example : runCalls Env.sample
    [(some ("main.f", 7), .Min 0 1), (none, .Required (.str "Alex")),
      (none, .Length (.str "abc") 2)] ⟨[], false⟩ ⟨[], []⟩
    = some (⟨[0, 1], false⟩,
        ⟨[⟨"Minimum is 1\n", "age"⟩, ⟨"Required length is 2\n", ""⟩],
          [⟨some 0, false⟩, ⟨none, true⟩, ⟨some 1, false⟩]⟩) := by
  decide

end utils

namespace models

open utils

/-! ## `Details.Validate` -/

/-- C7: `d.Validate()` returns `(true, {"name": "Name is missing"})` when `d.Name` is empty
or white space throughout, and `(false, {})` otherwise, whatever the key table and the
heap; records with the same Name get the same outcome, whatever their Id, Age and
Gender. -/
theorem Details_Validate_outcome (env : Env) (d : Details) (m : Mem) :
    (∃ m1, d.Validate env m
      = some ((if d.Name.data.all isSpace then (true, [("name", "Name is missing")])
          else (false, [])), m1))
    ∧ ∀ d2 : Details, d2.Name = d.Name → d2.Validate env m = d.Validate env m := by
  constructor
  · have hsat := Required.IsSatisfied_str Required.mk d.Name
    by_cases hall : d.Name.data.all isSpace = true
    · rw [hall] at hsat
      have hchk : (Required.mk).toValidator.IsSatisfied (.str d.Name) = some false := by
        simp only [Required.toValidator, hsat]; rfl
      refine ⟨⟨m.errors ++ [⟨"Name is missing", "name"⟩],
        m.results ++ [⟨some m.errors.length, false⟩]⟩, ?_⟩
      simp only [Details.Validate, Validation.Required,
        apply_of_false env _ _ _ _ m hchk, ValidationResult.Key, ValidationResult.Message,
        List.getElem?_concat_length, Validation.ErrorMap, Validation.ErrorMap.loop,
        Validation.HasErrors, hall]
      simp [GoMap.assign]
    · have hall2 : d.Name.data.all isSpace = false := by simpa using hall
      rw [hall2] at hsat
      have hchk : (Required.mk).toValidator.IsSatisfied (.str d.Name) = some true := by
        simp only [Required.toValidator, hsat]; rfl
      refine ⟨⟨m.errors, m.results ++ [⟨none, true⟩]⟩, ?_⟩
      simp only [Details.Validate, Validation.Required,
        apply_of_true env _ _ _ _ m hchk, ValidationResult.Key, ValidationResult.Message,
        List.getElem?_concat_length, Validation.ErrorMap, Validation.ErrorMap.loop,
        Validation.HasErrors, hall2]
      simp
  · intro d2 h
    simp only [Details.Validate, h]

example : Details.Validate Env.empty ⟨"", "", "30", "M"⟩ ⟨[], []⟩
    = some ((true, [("name", "Name is missing")]),
        ⟨[⟨"Name is missing", "name"⟩], [⟨some 0, false⟩]⟩) := by
  decide

example : Details.Validate Env.empty ⟨"", "Alex", "30", "M"⟩ ⟨[], []⟩
    = some ((false, []), ⟨[], [⟨none, true⟩]⟩) := by
  decide

example : Details.Validate Env.empty ⟨"", " \t", "30", "M"⟩ ⟨[], []⟩
    = some ((true, [("name", "Name is missing")]),
        ⟨[⟨"Name is missing", "name"⟩], [⟨some 0, false⟩]⟩) := by
  decide

end models

namespace utils

/-! ## `ValidationResult.Key` and `ValidationResult.Message` -/

/-- C8: `r.Key(k)` returns `r` itself. When `r` owns an error, that error's Key becomes `k`
while its Message, the result `r` (so `r.Ok`) and every other error stay as they were,
and a context that recorded the error shows the new key at that entry; when `r` has no
error, `Key` changes nothing. -/
theorem Key_overwrites_key_only (m : Mem) (r : Addr) (res : ValidationResult) (k : String)
    (hr : m.results[r]? = some res) :
    (∀ (e : Addr) (err : ValidationError), res.Error = some e → m.errors[e]? = some err →
      ∃ m1, ValidationResult.Key (some r) k m = some (some r, m1)
        ∧ m1.errors[e]? = some ⟨err.Message, k⟩
        ∧ m1.results = m.results
        ∧ m1.errors.length = m.errors.length
        ∧ (∀ a, a ≠ e → m1.errors[a]? = m.errors[a]?)
        ∧ ∀ (v : Validation) (i : Nat), v.Errors[i]? = some e →
            (v.deref m1)[i]? = some (some ⟨err.Message, k⟩))
    ∧ (res.Error = none → ValidationResult.Key (some r) k m = some (some r, m)) := by
  constructor
  · intro e err he herr
    have hlt : e < m.errors.length := by
      by_contra hge
      rw [List.getElem?_eq_none (Nat.le_of_not_lt hge)] at herr
      cases herr
    have hset : (m.errors.set e { err with Key := k })[e]? = some ⟨err.Message, k⟩ := by
      rw [List.getElem?_set_self hlt]
    refine ⟨{ m with errors := m.errors.set e { err with Key := k } }, ?_, hset, rfl, ?_, ?_, ?_⟩
    · simp [ValidationResult.Key, hr, he, herr]
    · simp
    · intro a ha
      exact List.getElem?_set_ne (fun h => ha h.symm)
    · intro v i hi
      simp only [Validation.deref, List.getElem?_map, hi, Option.map_some']
      rw [hset]
  · intro he
    simp [ValidationResult.Key, hr, he]

/-- A failed result whose error a context recorded, and a successful result. -/
theorem Key_overwrites_key_only_witness :
    ((⟨[⟨"Required", ""⟩], [⟨some 0, false⟩]⟩ : Mem).results[0]? = some ⟨some 0, false⟩
      ∧ (⟨some 0, false⟩ : ValidationResult).Error = some 0
      ∧ (⟨[⟨"Required", ""⟩], [⟨some 0, false⟩]⟩ : Mem).errors[0]? = some ⟨"Required", ""⟩
      ∧ ∃ m1, ValidationResult.Key (some 0) "name" ⟨[⟨"Required", ""⟩], [⟨some 0, false⟩]⟩
            = some (some 0, m1)
        ∧ m1.errors[0]? = some ⟨(⟨"Required", ""⟩ : ValidationError).Message, "name"⟩
        ∧ m1.results = (⟨[⟨"Required", ""⟩], [⟨some 0, false⟩]⟩ : Mem).results
        ∧ m1.errors.length = (⟨[⟨"Required", ""⟩], [⟨some 0, false⟩]⟩ : Mem).errors.length
        ∧ (∀ a, a ≠ 0 →
            m1.errors[a]? = (⟨[⟨"Required", ""⟩], [⟨some 0, false⟩]⟩ : Mem).errors[a]?)
        ∧ ∀ (v : Validation) (i : Nat), v.Errors[i]? = some 0 →
            (v.deref m1)[i]?
              = some (some ⟨(⟨"Required", ""⟩ : ValidationError).Message, "name"⟩))
    ∧ ((⟨[], [⟨none, true⟩]⟩ : Mem).results[0]? = some ⟨none, true⟩
      ∧ (⟨none, true⟩ : ValidationResult).Error = none
      ∧ ValidationResult.Key (some 0) "name" ⟨[], [⟨none, true⟩]⟩
          = some (some 0, ⟨[], [⟨none, true⟩]⟩)) :=
  ⟨⟨by decide, rfl, by decide,
      (Key_overwrites_key_only ⟨[⟨"Required", ""⟩], [⟨some 0, false⟩]⟩ 0 ⟨some 0, false⟩ "name"
        (by decide)).1 0 ⟨"Required", ""⟩ rfl (by decide)⟩,
    ⟨by decide, rfl,
      (Key_overwrites_key_only ⟨[], [⟨none, true⟩]⟩ 0 ⟨none, true⟩ "name" (by decide)).2 rfl⟩⟩

/-- C9: `r.Message(msg)` with no format arguments returns `r` itself. When `r` owns an
error, that error's Message becomes exactly `msg`, whatever characters `msg` holds and
whatever `fmt.Sprintf` does, while its Key, the result `r` (so `r.Ok`) and every other
error stay as they were; when `r` has no error, `Message` changes nothing. -/
theorem Message_without_args_is_literal (env : Env) (m : Mem) (r : Addr)
    (res : ValidationResult) (msg : String)
    (hr : m.results[r]? = some res) :
    (∀ (e : Addr) (err : ValidationError), res.Error = some e → m.errors[e]? = some err →
      ∃ m1, ValidationResult.Message env (some r) msg [] m = some (some r, m1)
        ∧ m1.errors[e]? = some ⟨msg, err.Key⟩
        ∧ m1.results = m.results
        ∧ m1.errors.length = m.errors.length
        ∧ (∀ a, a ≠ e → m1.errors[a]? = m.errors[a]?))
    ∧ (res.Error = none →
        ValidationResult.Message env (some r) msg [] m = some (some r, m)) := by
  constructor
  · intro e err he herr
    have hlt : e < m.errors.length := by
      by_contra hge
      rw [List.getElem?_eq_none (Nat.le_of_not_lt hge)] at herr
      cases herr
    have hset : (m.errors.set e { err with Message := msg })[e]? = some ⟨msg, err.Key⟩ := by
      rw [List.getElem?_set_self hlt]
    refine ⟨{ m with errors := m.errors.set e { err with Message := msg } }, ?_, hset, rfl,
      ?_, ?_⟩
    · simp [ValidationResult.Message, hr, he, herr]
    · simp
    · intro a ha
      exact List.getElem?_set_ne (fun h => ha h.symm)
  · intro he
    simp [ValidationResult.Message, hr, he]

/-- A failed result given a message with a verb in it, and a successful result. -/
theorem Message_without_args_is_literal_witness :
    ((⟨[⟨"Required", "name"⟩], [⟨some 0, false⟩]⟩ : Mem).results[0]? = some ⟨some 0, false⟩
      ∧ (⟨some 0, false⟩ : ValidationResult).Error = some 0
      ∧ (⟨[⟨"Required", "name"⟩], [⟨some 0, false⟩]⟩ : Mem).errors[0]?
          = some ⟨"Required", "name"⟩
      ∧ ∃ m1, ValidationResult.Message Env.marking (some 0) "100%d missing" []
            ⟨[⟨"Required", "name"⟩], [⟨some 0, false⟩]⟩ = some (some 0, m1)
        ∧ m1.errors[0]? = some ⟨"100%d missing", (⟨"Required", "name"⟩ : ValidationError).Key⟩
        ∧ m1.results = (⟨[⟨"Required", "name"⟩], [⟨some 0, false⟩]⟩ : Mem).results
        ∧ m1.errors.length
            = (⟨[⟨"Required", "name"⟩], [⟨some 0, false⟩]⟩ : Mem).errors.length
        ∧ (∀ a, a ≠ 0 →
            m1.errors[a]? = (⟨[⟨"Required", "name"⟩], [⟨some 0, false⟩]⟩ : Mem).errors[a]?))
    ∧ ((⟨[], [⟨none, true⟩]⟩ : Mem).results[0]? = some ⟨none, true⟩
      ∧ (⟨none, true⟩ : ValidationResult).Error = none
      ∧ ValidationResult.Message Env.marking (some 0) "100%d missing" [] ⟨[], [⟨none, true⟩]⟩
          = some (some 0, ⟨[], [⟨none, true⟩]⟩)) :=
  ⟨⟨by decide, rfl, by decide,
      (Message_without_args_is_literal Env.marking ⟨[⟨"Required", "name"⟩], [⟨some 0, false⟩]⟩
        0 ⟨some 0, false⟩ "100%d missing" (by decide)).1 0 ⟨"Required", "name"⟩ rfl
        (by decide)⟩,
    ⟨by decide, rfl,
      (Message_without_args_is_literal Env.marking ⟨[], [⟨none, true⟩]⟩ 0 ⟨none, true⟩
        "100%d missing" (by decide)).2 rfl⟩⟩

example : ValidationResult.Message Env.marking (some 0) "100%d missing" []
    ⟨[⟨"Required", "name"⟩], [⟨some 0, false⟩]⟩
    = some (some 0, ⟨[⟨"100%d missing", "name"⟩], [⟨some 0, false⟩]⟩) := by
  decide

example : ValidationResult.Message Env.marking (some 0) "%d missing" [.int 1]
    ⟨[⟨"Required", "name"⟩], [⟨some 0, false⟩]⟩
    = some (some 0, ⟨[⟨"formatted:%d missing", "name"⟩], [⟨some 0, false⟩]⟩) := by
  decide

/-! ## `Clear` -/

/-- C10: after `v.Clear()` the error list is empty, the keep flag is as before,
`HasErrors()` is false and `ErrorMap()` is the empty map; a failing check applied next
leaves exactly one error in the list, the one it has just recorded. -/
theorem Clear_empties_the_context (env : Env) (site : Option CallSite) (v : Validation)
    (m : Mem) :
    v.Clear.Errors = []
    ∧ v.Clear.keep = v.keep
    ∧ v.Clear.HasErrors = false
    ∧ v.Clear.ErrorMap m = some ([], v.Clear, m)
    ∧ ∀ (chk : Validator) (obj : Value), chk.IsSatisfied obj = some false →
        ∃ r v1 m1, v.Clear.apply env site chk obj m = some (r, v1, m1)
          ∧ v1.Errors.length = 1
          ∧ v1.deref m1 = [some ⟨chk.DefaultMessage, defaultKey env site⟩]
          ∧ v1.HasErrors = true := by
  refine ⟨rfl, rfl, rfl, rfl, ?_⟩
  intro chk obj h
  refine ⟨_, _, _, apply_of_false env site v.Clear chk obj m h, ?_, ?_, ?_⟩
  · simp [Validation.Clear]
  · simp [Validation.deref, Validation.Clear, List.getElem?_concat_length]
  · simp [Validation.HasErrors, Validation.Clear]

/-- A context holding two errors is cleared, and `Min{1}` is then applied to 0. -/
theorem Clear_empties_the_context_witness :
    (utils.Min.mk 1).toValidator.IsSatisfied (.int 0) = some false
    ∧ ∃ r v1 m1, (Validation.Clear ⟨[0, 1], true⟩).apply Env.empty none
          (utils.Min.mk 1).toValidator (.int 0) ⟨[⟨"a", "x"⟩, ⟨"b", "y"⟩], []⟩
          = some (r, v1, m1)
      ∧ v1.Errors.length = 1
      ∧ v1.deref m1
          = [some ⟨(utils.Min.mk 1).toValidator.DefaultMessage, defaultKey Env.empty none⟩]
      ∧ v1.HasErrors = true :=
  ⟨by decide,
    (Clear_empties_the_context Env.empty none ⟨[0, 1], true⟩
      ⟨[⟨"a", "x"⟩, ⟨"b", "y"⟩], []⟩).2.2.2.2 (utils.Min.mk 1).toValidator (.int 0)
      (by decide)⟩

example : AddEscapeString "a+b" = "a\\+b" := by decide

example : AddEscapeString "\\." = "\\\\\\." := by decide

example : Replace "aaa" "aa" "b" = "ba" := by decide

example : Replace "ab" "" "-" = "-a-b-" := by decide

/-! ## The checks on strings and numbers -/

/-- C11: `Required{}.IsSatisfied(s)` on a string is true iff `s` without its leading and
trailing white space is not the empty string; it is false for every string of white
space only, for "" and "  " in particular, and true for "a". -/
theorem Required_string_iff_trimmed_nonempty :
    (∀ s : String, (Required.mk).IsSatisfied (.str s) = true ↔ TrimSpace s ≠ "")
    ∧ (∀ s : String, (Required.mk).IsSatisfied (.str s) = false ↔ s.data.all isSpace = true)
    ∧ (Required.mk).IsSatisfied (.str "") = false
    ∧ (Required.mk).IsSatisfied (.str "  ") = false
    ∧ (Required.mk).IsSatisfied (.str "a") = true := by
  refine ⟨?_, ?_, by decide, by decide, by decide⟩
  · intro s
    have hnil : TrimSpace s = "" ↔ (TrimSpace s).data = [] := by
      rw [String.ext_iff]
    rw [Ne, hnil, TrimSpace_data_eq_nil_iff, Required.IsSatisfied_str]
    cases s.data.all isSpace <;> simp
  · intro s
    rw [Required.IsSatisfied_str]
    cases s.data.all isSpace <;> simp

/-- The claim C12 fails on the code: a zero of type `int64` is reported satisfied. -/
theorem Required_int64_zero_satisfied :
    ¬ ((Required.mk).IsSatisfied (.other "int64" (some 0)) = true ↔ (0 : Int) ≠ 0) := by
  decide

/-- C12, amended: `Required{}.IsSatisfied` is true iff the number is not zero for a value
of type `int` and for a value of type `float64` (neither `+0` nor `-0`, by bit pattern);
a value of any other numeric type is satisfied whatever its number, zero included. -/
theorem Required_numeric_by_dynamic_type :
    (∀ n : Int, (Required.mk).IsSatisfied (.int n) = true ↔ n ≠ 0)
    ∧ (∀ bits : Nat, (Required.mk).IsSatisfied (.float64 bits) = true ↔ bits % 2 ^ 63 ≠ 0)
    ∧ (∀ (typeName : String) (num : Option Int),
        (Required.mk).IsSatisfied (.other typeName num) = true) := by
  refine ⟨?_, ?_, ?_⟩
  · intro n
    simp [Required.IsSatisfied]
  · intro bits
    simp [Required.IsSatisfied, float64NonZero]
  · intro typeName num
    rfl

/-- C13: `Range{Min{min}, Max{max}}.IsSatisfied(n)` on an int is true iff
`min <= n <= max`, both bounds included; with `min > max` no value of any type satisfies
the check. -/
theorem Range_int_iff_between :
    (∀ n min max : Int,
      (utils.Range.mk (utils.Min.mk min) (utils.Max.mk max)).IsSatisfied (.int n) = true
        ↔ min ≤ n ∧ n ≤ max)
    ∧ (utils.Range.mk (utils.Min.mk 1) (utils.Max.mk 10)).IsSatisfied (.int 5) = true
    ∧ (utils.Range.mk (utils.Min.mk 1) (utils.Max.mk 10)).IsSatisfied (.int 10) = true
    ∧ (utils.Range.mk (utils.Min.mk 1) (utils.Max.mk 10)).IsSatisfied (.int 0) = false
    ∧ (∀ min max : Int, min > max → ∀ x : Value,
        (utils.Range.mk (utils.Min.mk min) (utils.Max.mk max)).IsSatisfied x = false) := by
  refine ⟨?_, by decide, by decide, by decide, ?_⟩
  · intro n min max
    simp [Range.IsSatisfied, utils.Min.IsSatisfied, utils.Max.IsSatisfied]
  · intro min max h x
    cases x <;> simp [Range.IsSatisfied, utils.Min.IsSatisfied, utils.Max.IsSatisfied]
    omega

/-- The bounds 10 and 1, the wrong way round, on the value 5. -/
theorem Range_int_iff_between_witness :
    (10 : Int) > 1
    ∧ (utils.Range.mk (utils.Min.mk 10) (utils.Max.mk 1)).IsSatisfied (.int 5) = false :=
  ⟨by decide, Range_int_iff_between.2.2.2.2 10 1 (by decide) (.int 5)⟩

/-- What `TrimSpace` removes: the string is its trimmed form between two runs of white
space, and the trimmed form neither starts nor ends with white space. -/
theorem TrimSpace_decomposition (s : String) :
    ∃ pre post : List Char,
      s.data = pre ++ (TrimSpace s).data ++ post
      ∧ pre.all isSpace = true ∧ post.all isSpace = true
      ∧ (∀ c, (TrimSpace s).data.head? = some c → isSpace c = false)
      ∧ (∀ c, (TrimSpace s).data.getLast? = some c → isSpace c = false) := by
  unfold TrimSpace
  simp only
  have h2 : s.data.dropWhile isSpace
      = ((s.data.dropWhile isSpace).reverse.dropWhile isSpace).reverse
        ++ ((s.data.dropWhile isSpace).reverse.takeWhile isSpace).reverse := by
    rw [← List.reverse_append, List.takeWhile_append_dropWhile, List.reverse_reverse]
  refine ⟨s.data.takeWhile isSpace,
    ((s.data.dropWhile isSpace).reverse.takeWhile isSpace).reverse, ?_, ?_, ?_, ?_, ?_⟩
  · rw [List.append_assoc, ← h2]
    exact (List.takeWhile_append_dropWhile isSpace s.data).symm
  · rw [List.all_eq_true]
    intro x hx
    exact List.mem_takeWhile_imp hx
  · rw [List.all_eq_true]
    intro x hx
    exact List.mem_takeWhile_imp (List.mem_reverse.mp hx)
  · intro c hc
    have hdh : (s.data.dropWhile isSpace).head? = some c := by
      rw [h2, List.head?_append, hc]; rfl
    have := List.head?_dropWhile_not isSpace s.data
    rw [hdh] at this
    simpa using this
  · intro c hc
    rw [List.getLast?_reverse] at hc
    have := List.head?_dropWhile_not isSpace (s.data.dropWhile isSpace).reverse
    rw [hc] at this
    simpa using this

/-- C14: a value that is not of type `int` satisfies none of `Min`, `Max` and `Range`,
and a value that is neither a string nor a slice satisfies none of `MinSize`, `MaxSize`
and `Length`: `IsSatisfied` returns false without failing, and applying the check
records one ordinary error carrying the default message of the check. -/
theorem type_mismatch_is_not_satisfied (env : Env) (site : Option CallSite) (v : Validation)
    (m : Mem) (x : Value) (k lo hi : Int) :
    ((∀ n : Int, x ≠ .int n) →
      ∀ chk ∈ [(utils.Min.mk k).toValidator, (utils.Max.mk k).toValidator,
          (utils.Range.mk (utils.Min.mk lo) (utils.Max.mk hi)).toValidator],
        chk.IsSatisfied x = some false
        ∧ v.apply env site chk x m
            = some (some m.results.length, { v with Errors := v.Errors ++ [m.errors.length] },
                { errors := m.errors ++ [⟨chk.DefaultMessage, defaultKey env site⟩],
                  results := m.results ++ [⟨some m.errors.length, false⟩] }))
    ∧ ((∀ s : String, x ≠ .str s) → (∀ xs : List Value, x ≠ .slice xs) →
      ∀ chk ∈ [(utils.MinSize.mk k).toValidator, (utils.MaxSize.mk k).toValidator,
          (utils.Length.mk k).toValidator],
        chk.IsSatisfied x = some false
        ∧ v.apply env site chk x m
            = some (some m.results.length, { v with Errors := v.Errors ++ [m.errors.length] },
                { errors := m.errors ++ [⟨chk.DefaultMessage, defaultKey env site⟩],
                  results := m.results ++ [⟨some m.errors.length, false⟩] })) := by
  constructor
  · intro hx chk hchk
    have hsat : chk.IsSatisfied x = some false := by
      simp only [List.mem_cons, List.mem_singleton, List.not_mem_nil, or_false] at hchk
      rcases hchk with h | h | h <;> subst h <;> cases x <;>
        first
        | exact absurd rfl (hx _)
        | rfl
    exact ⟨hsat, apply_of_false env site v chk x m hsat⟩
  · intro hs hl chk hchk
    have hsat : chk.IsSatisfied x = some false := by
      simp only [List.mem_cons, List.mem_singleton, List.not_mem_nil, or_false] at hchk
      rcases hchk with h | h | h <;> subst h <;> cases x <;>
        first
        | exact absurd rfl (hs _)
        | exact absurd rfl (hl _)
        | rfl
    exact ⟨hsat, apply_of_false env site v chk x m hsat⟩

/-- The string "7" under `Max{10}`, and the int 7 under `MinSize{0}`. -/
theorem type_mismatch_is_not_satisfied_witness :
    ((∀ n : Int, Value.str "7" ≠ .int n)
      ∧ (utils.Max.mk 10).toValidator.IsSatisfied (.str "7") = some false
      ∧ Validation.apply Env.empty none ⟨[], false⟩ (utils.Max.mk 10).toValidator (.str "7")
            ⟨[], []⟩
          = some (some (⟨[], []⟩ : Mem).results.length,
              { (⟨[], false⟩ : Validation) with
                Errors := (⟨[], false⟩ : Validation).Errors ++ [(⟨[], []⟩ : Mem).errors.length] },
              { errors := (⟨[], []⟩ : Mem).errors
                  ++ [⟨(utils.Max.mk 10).toValidator.DefaultMessage, defaultKey Env.empty none⟩],
                results := (⟨[], []⟩ : Mem).results
                  ++ [⟨some (⟨[], []⟩ : Mem).errors.length, false⟩] }))
    ∧ ((∀ s : String, Value.int 7 ≠ .str s) ∧ (∀ xs : List Value, Value.int 7 ≠ .slice xs)
      ∧ (utils.MinSize.mk 0).toValidator.IsSatisfied (.int 7) = some false
      ∧ Validation.apply Env.empty none ⟨[], false⟩ (utils.MinSize.mk 0).toValidator (.int 7)
            ⟨[], []⟩
          = some (some (⟨[], []⟩ : Mem).results.length,
              { (⟨[], false⟩ : Validation) with
                Errors := (⟨[], false⟩ : Validation).Errors ++ [(⟨[], []⟩ : Mem).errors.length] },
              { errors := (⟨[], []⟩ : Mem).errors
                  ++ [⟨(utils.MinSize.mk 0).toValidator.DefaultMessage,
                        defaultKey Env.empty none⟩],
                results := (⟨[], []⟩ : Mem).results
                  ++ [⟨some (⟨[], []⟩ : Mem).errors.length, false⟩] })) :=
  ⟨⟨fun _ h => Value.noConfusion h,
      (type_mismatch_is_not_satisfied Env.empty none ⟨[], false⟩ ⟨[], []⟩ (.str "7") 10 0 0).1
        (fun _ h => Value.noConfusion h) (utils.Max.mk 10).toValidator (by simp)⟩,
    ⟨fun _ h => Value.noConfusion h, fun _ h => Value.noConfusion h,
      (type_mismatch_is_not_satisfied Env.empty none ⟨[], false⟩ ⟨[], []⟩ (.int 7) 0 0 0).2
        (fun _ h => Value.noConfusion h) (fun _ h => Value.noConfusion h)
        (utils.MinSize.mk 0).toValidator (by simp)⟩⟩

example : Validation.apply Env.empty none ⟨[], false⟩ (utils.MinSize.mk 0).toValidator (.int 7)
    ⟨[], []⟩
    = some (some 0, ⟨[0], false⟩, ⟨[⟨"Minimum size is 0\n", ""⟩], [⟨some 0, false⟩]⟩) := by
  decide

/-- C15: `Length{n}.IsSatisfied(s)` on a string is true iff the length of `s` without its
leading and trailing white space is exactly `n`, and on a slice iff the number of its
elements is `n`; so `Length("ab ", 2)` is satisfied and `Length("abc", 2)` is not. -/
theorem Length_iff_trimmed_length_eq :
    (∀ (s : String) (n : Int),
      (utils.Length.mk n).IsSatisfied (.str s) = true ↔ len (TrimSpace s) = n)
    ∧ (∀ s : String, ∃ pre post : List Char,
        s.data = pre ++ (TrimSpace s).data ++ post
        ∧ pre.all isSpace = true ∧ post.all isSpace = true
        ∧ (∀ c, (TrimSpace s).data.head? = some c → isSpace c = false)
        ∧ (∀ c, (TrimSpace s).data.getLast? = some c → isSpace c = false))
    ∧ (∀ (xs : List Value) (n : Int),
      (utils.Length.mk n).IsSatisfied (.slice xs) = true ↔ (xs.length : Int) = n)
    ∧ (utils.Length.mk 2).IsSatisfied (.str "ab ") = true
    ∧ (utils.Length.mk 2).IsSatisfied (.str "abc") = false := by
  refine ⟨?_, TrimSpace_decomposition, ?_, by decide, by decide⟩
  · intro s n
    simp [Length.IsSatisfied]
  · intro xs n
    simp [Length.IsSatisfied]

/-- C16: `MinSize{n}.IsSatisfied(s)` on a string is true iff the length of `s`, as it is,
is at least `n`, and `MaxSize{n}.IsSatisfied(s)` iff it is at most `n`; on a slice the
same with the number of elements. Surrounding white space counts: "ab " has size 3
for `MinSize` and `MaxSize` and length 2 for `Length`. -/
theorem MinSize_MaxSize_iff_untrimmed_length :
    (∀ (s : String) (n : Int), (utils.MinSize.mk n).IsSatisfied (.str s) = true ↔ len s ≥ n)
    ∧ (∀ (s : String) (n : Int), (utils.MaxSize.mk n).IsSatisfied (.str s) = true ↔ len s ≤ n)
    ∧ (∀ (xs : List Value) (n : Int),
        (utils.MinSize.mk n).IsSatisfied (.slice xs) = true ↔ (xs.length : Int) ≥ n)
    ∧ (∀ (xs : List Value) (n : Int),
        (utils.MaxSize.mk n).IsSatisfied (.slice xs) = true ↔ (xs.length : Int) ≤ n)
    ∧ (utils.MinSize.mk 3).IsSatisfied (.str "ab ") = true
    ∧ (utils.MaxSize.mk 2).IsSatisfied (.str "ab ") = false
    ∧ (utils.Length.mk 3).IsSatisfied (.str "ab ") = false := by
  refine ⟨?_, ?_, ?_, ?_, by decide, by decide, by decide⟩
  · intro s n
    simp [MinSize.IsSatisfied]
  · intro s n
    simp [MaxSize.IsSatisfied]
  · intro xs n
    simp [MinSize.IsSatisfied]
  · intro xs n
    simp [MaxSize.IsSatisfied]

/-! ## `Match`, `Email` and `Check` at the edges -/

/-- When the checks run without a panic, the loop of `Check` returns, and its result is
a live result object as soon as one check was applied or the loop started with one. -/
theorem Check.loop_total (env : Env) (site : Option CallSite) (obj : Value) :
    ∀ (cs : List Validator), (∀ c ∈ cs, ∃ b, c.IsSatisfied obj = some b) →
      ∀ (result : Option Addr) (v : Validation) (m : Mem),
        (cs = [] → ∃ ra res, result = some ra ∧ m.results[ra]? = some res) →
        ∃ ra res v1 m1, Validation.Check.loop env site obj cs result v m = some (some ra, v1, m1)
          ∧ m1.results[ra]? = some res := by
  intro cs
  induction cs with
  | nil =>
    intro _ result v m h
    obtain ⟨ra, res, hr, hres⟩ := h rfl
    exact ⟨ra, res, v, m, by simp [Validation.Check.loop, hr], hres⟩
  | cons c rest ih =>
    intro hall result v m _
    obtain ⟨b, hb⟩ := hall c (List.mem_cons_self _ _)
    have hrest : ∀ q ∈ rest, ∃ b, q.IsSatisfied obj = some b :=
      fun q hq => hall q (List.mem_cons_of_mem _ hq)
    cases b with
    | false =>
      refine ⟨m.results.length, ⟨some m.errors.length, false⟩,
        { v with Errors := v.Errors ++ [m.errors.length] },
        { errors := m.errors ++ [⟨c.DefaultMessage, defaultKey env site⟩],
          results := m.results ++ [⟨some m.errors.length, false⟩] }, ?_, ?_⟩
      · simp only [Validation.Check.loop, apply_of_false env site v c obj m hb,
          List.getElem?_concat_length, Bool.not_false, if_true]
      · simp only [List.getElem?_concat_length]
    | true =>
      simp only [Validation.Check.loop, apply_of_true env site v c obj m hb,
        List.getElem?_concat_length, Bool.not_true, Bool.false_eq_true, if_false]
      apply ih hrest
      intro _
      exact ⟨m.results.length, ⟨none, true⟩, rfl, by simp only [List.getElem?_concat_length]⟩

/-- The claim C17 fails on the code: with a nil pattern, `Match{nil}`, the zero `Email{}`
and the method `v.Match(s, nil)` panic on the string "abc" as well. -/
theorem Match_nil_pattern_panics_on_string :
    ¬ (∃ b : Bool, (Match.mk none).IsSatisfied (.str "abc") = some b)
    ∧ ¬ (∃ b : Bool, (Email.mk (Match.mk none)).IsSatisfied (.str "abc") = some b)
    ∧ Validation.Match Env.empty none ⟨[], false⟩ "abc" none ⟨[], []⟩ = none
    ∧ Validation.Check Env.empty none ⟨[], false⟩ (.str "abc") [(Match.mk none).toValidator]
        ⟨[], []⟩ = none := by
  refine ⟨?_, ?_, by decide, by decide⟩
  · rintro ⟨b, hb⟩
    cases hb
  · rintro ⟨b, hb⟩
    cases hb

/-- C17, amended: on a value that is not a string, `Match{p}.IsSatisfied` and `Email`'s
`IsSatisfied` do not return: they panic, and so do `apply` and `Check` with such a check,
also after checks that were satisfied, so that no result is returned and no error is
recorded; on a string, with a compiled (non-nil) pattern, they return exactly what the
pattern's `MatchString` reports and do not panic; with a nil pattern they panic on every
string too. -/
theorem Match_panics_unless_string (env : Env) (site : Option CallSite) (v : Validation)
    (mem : Mem) (p : Option Regexp) :
    (∀ x : Value, (∀ s : String, x ≠ .str s) →
      (Match.mk p).IsSatisfied x = none
      ∧ (Email.mk (Match.mk p)).IsSatisfied x = none
      ∧ v.apply env site (Match.mk p).toValidator x mem = none
      ∧ v.Check env site x [(Match.mk p).toValidator] mem = none
      ∧ v.Check env site x [(Email.mk (Match.mk p)).toValidator] mem = none
      ∧ ∀ (pre post : List Validator), (∀ c ∈ pre, c.IsSatisfied x = some true) →
          v.Check env site x (pre ++ (Match.mk p).toValidator :: post) mem = none)
    ∧ (∀ (re : Regexp) (s : String),
      (Match.mk (some re)).IsSatisfied (.str s) = some (re.MatchString s)
      ∧ (Email.mk (Match.mk (some re))).IsSatisfied (.str s) = some (re.MatchString s)
      ∧ (ValidEmail re).IsSatisfied (.str s) = some (re.MatchString s)
      ∧ ∃ r v1 m1, v.Match env site s (some re) mem = some (some r, v1, m1)
          ∧ m1.results[r]?
              = some ⟨if re.MatchString s then none else some mem.errors.length,
                  re.MatchString s⟩)
    ∧ (∀ s : String,
      (Match.mk none).IsSatisfied (.str s) = none
      ∧ (Email.mk (Match.mk none)).IsSatisfied (.str s) = none
      ∧ v.Match env site s none mem = none
      ∧ v.Check env site (.str s) [(Match.mk none).toValidator] mem = none) := by
  refine ⟨?_, ?_, ?_⟩
  · intro x hx
    have hm : (Match.mk p).IsSatisfied x = none := by
      cases x <;> first | exact absurd rfl (hx _) | rfl
    have hv : (Match.mk p).toValidator.IsSatisfied x = none := hm
    have he : (Email.mk (Match.mk p)).toValidator.IsSatisfied x = none := hm
    refine ⟨hm, hm, ?_, ?_, ?_, ?_⟩
    · simp [Validation.apply, hv]
    · simp [Validation.Check, Validation.Check.loop, Validation.apply, hv]
    · simp [Validation.Check, Validation.Check.loop, Validation.apply, he]
    · intro pre post hpre
      unfold Validation.Check
      rw [Check.loop_satisfied env site x pre _ hpre]
      simp [Validation.Check.loop, Validation.apply, hv]
  · intro re s
    refine ⟨rfl, rfl, rfl, ?_⟩
    have hv : (Match.mk (some re)).toValidator.IsSatisfied (.str s)
        = some (re.MatchString s) := rfl
    cases hb : re.MatchString s with
    | true =>
      rw [hb] at hv
      exact ⟨_, _, _, apply_of_true env site v _ (.str s) mem hv,
        by simp only [List.getElem?_concat_length]; rfl⟩
    | false =>
      rw [hb] at hv
      exact ⟨_, _, _, apply_of_false env site v _ (.str s) mem hv,
        by simp only [List.getElem?_concat_length]; rfl⟩
  · intro s
    have hv : (Match.mk none).toValidator.IsSatisfied (.str s) = none := rfl
    refine ⟨rfl, rfl, ?_, ?_⟩
    · simp [Validation.Match, Validation.apply, hv]
    · simp [Validation.Check, Validation.Check.loop, Validation.apply, hv]

/-- The int 5 under the pattern `^a`, alone and after the satisfied check `Min{1}`. -/
theorem Match_panics_unless_string_witness :
    (∀ s : String, Value.int 5 ≠ .str s)
    ∧ (∀ c ∈ [(utils.Min.mk 1).toValidator], c.IsSatisfied (.int 5) = some true)
    ∧ (Match.mk (some Regexp.sample)).IsSatisfied (.int 5) = none
    ∧ (Email.mk (Match.mk (some Regexp.sample))).IsSatisfied (.int 5) = none
    ∧ Validation.apply Env.empty none ⟨[], false⟩ (Match.mk (some Regexp.sample)).toValidator
        (.int 5) ⟨[], []⟩ = none
    ∧ Validation.Check Env.empty none ⟨[], false⟩ (.int 5)
        [(Match.mk (some Regexp.sample)).toValidator] ⟨[], []⟩ = none
    ∧ Validation.Check Env.empty none ⟨[], false⟩ (.int 5)
        [(Email.mk (Match.mk (some Regexp.sample))).toValidator] ⟨[], []⟩ = none
    ∧ Validation.Check Env.empty none ⟨[], false⟩ (.int 5)
        ([(utils.Min.mk 1).toValidator] ++ (Match.mk (some Regexp.sample)).toValidator :: [])
        ⟨[], []⟩ = none :=
  have h := (Match_panics_unless_string Env.empty none ⟨[], false⟩ ⟨[], []⟩
    (some Regexp.sample)).1 (.int 5) (fun _ h => Value.noConfusion h)
  have hpre : ∀ c ∈ [(utils.Min.mk 1).toValidator], c.IsSatisfied (.int 5) = some true := by
    simp [utils.Min.toValidator, utils.Min.IsSatisfied]
  ⟨fun _ h => Value.noConfusion h, hpre, h.1, h.2.1, h.2.2.1, h.2.2.2.1, h.2.2.2.2.1,
    h.2.2.2.2.2 [(utils.Min.mk 1).toValidator] [] hpre⟩

example : (Match.mk (some Regexp.sample)).IsSatisfied (.str "abc") = some true := by decide

example : (Match.mk (some Regexp.sample)).IsSatisfied (.str "xbc") = some false := by decide

example : (Match.mk none).IsSatisfied (.str "abc") = none := by decide

/-- C18: `Check` called with no checks returns the nil result, not a result with Ok=true,
and leaves the context and the heap as they were; with at least one check, none of which
panics, it returns a pointer to a live result. -/
theorem Check_without_checks_returns_nil (env : Env) (site : Option CallSite) (v : Validation)
    (obj : Value) (m : Mem) :
    v.Check env site obj [] m = some (none, v, m)
    ∧ ∀ cs : List Validator, cs ≠ [] → (∀ c ∈ cs, ∃ b, c.IsSatisfied obj = some b) →
        ∃ ra res v1 m1, v.Check env site obj cs m = some (some ra, v1, m1)
          ∧ m1.results[ra]? = some res := by
  refine ⟨rfl, ?_⟩
  intro cs hne hall
  exact Check.loop_total env site obj cs hall none v m (fun h => absurd h hne)

/-- The one check `Required{}` on the empty string. -/
theorem Check_without_checks_returns_nil_witness :
    [(Required.mk).toValidator] ≠ []
    ∧ (∀ c ∈ [(Required.mk).toValidator], ∃ b, c.IsSatisfied (.str "") = some b)
    ∧ ∃ ra res v1 m1,
        Validation.Check Env.empty none ⟨[], false⟩ (.str "") [(Required.mk).toValidator]
          ⟨[], []⟩ = some (some ra, v1, m1)
        ∧ m1.results[ra]? = some res :=
  have hall : ∀ c ∈ [(Required.mk).toValidator], ∃ b, c.IsSatisfied (.str "") = some b := by
    intro c hc
    simp only [List.mem_singleton] at hc
    subst hc
    exact ⟨_, rfl⟩
  ⟨by simp, hall,
    (Check_without_checks_returns_nil Env.empty none ⟨[], false⟩ (.str "") ⟨[], []⟩).2
      [(Required.mk).toValidator] (by simp) hall⟩

example : Validation.Check Env.empty none ⟨[3], true⟩ (.int 0) [] ⟨[], []⟩
    = some (none, ⟨[3], true⟩, ⟨[], []⟩) := by
  decide

/-! ## The keys of `ErrorMap` -/

/-- Assigning a key the map does not hold appends the entry. -/
theorem GoMap.assign_of_none (acc : GoMap String String) (k x : String)
    (h : acc.lookup k = none) : acc.assign k x = acc ++ [(k, x)] := by
  unfold GoMap.assign
  rw [h]
  rfl

/-- The loop of `ErrorMap` on valid pointers adds at most one entry for each error, keeps
the keys pairwise distinct, and ends with an empty map only if it started with one and
had no error to go through. -/
theorem ErrorMap.loop_shape (m : Mem) :
    ∀ (es : List Addr) (errs : List ValidationError) (acc : GoMap String String),
      es.map (fun a => m.errors[a]?) = errs.map some →
      ∃ mp, Validation.ErrorMap.loop m es acc = some mp
        ∧ mp.length ≤ acc.length + es.length
        ∧ ((acc.map Prod.fst).Nodup → (mp.map Prod.fst).Nodup)
        ∧ (mp = [] → acc = [] ∧ es = []) := by
  intro es
  induction es with
  | nil =>
    intro errs acc _
    exact ⟨acc, rfl, by simp, id, fun h => ⟨h, rfl⟩⟩
  | cons a es ih =>
    intro errs acc h
    cases errs with
    | nil => simp at h
    | cons x xs =>
      simp only [List.map_cons, List.cons.injEq] at h
      obtain ⟨ha, hrest⟩ := h
      simp only [Validation.ErrorMap.loop, ha]
      cases hacc : acc.lookup x.Key with
      | some y =>
        obtain ⟨mp, hmp, hlen, hnd, hnil⟩ := ih xs acc hrest
        refine ⟨mp, hmp, ?_, hnd, ?_⟩
        · simp only [List.length_cons]; omega
        · intro hmpnil
          have hacc0 := (hnil hmpnil).1
          rw [hacc0] at hacc
          simp at hacc
      | none =>
        obtain ⟨mp, hmp, hlen, hnd, hnil⟩ := ih xs (acc.assign x.Key x.Message) hrest
        rw [GoMap.assign_of_none acc x.Key x.Message hacc] at hmp hlen hnd hnil
        rw [GoMap.assign_of_none acc x.Key x.Message hacc]
        refine ⟨mp, hmp, ?_, ?_, ?_⟩
        · simp only [List.length_append, List.length_cons, List.length_nil] at hlen ⊢
          omega
        · intro hacc_nd
          apply hnd
          rw [List.map_append, List.nodup_append]
          refine ⟨hacc_nd, by simp, ?_⟩
          intro k hk1 hk2
          simp only [List.map_cons, List.map_nil, List.mem_singleton] at hk2
          subst hk2
          obtain ⟨p, hp, hpk⟩ := List.mem_map.mp hk1
          have := (List.lookup_eq_none_iff.mp hacc) p hp
          simp [hpk] at this
        · intro hmpnil
          have := (hnil hmpnil).1
          simp at this

/-- C19: on a context with valid pointers, the keys of `ErrorMap()` are exactly the Key
values occurring among the recorded errors, the empty key included, each once; the map
is empty iff `HasErrors()` is false, and has no more entries than there are recorded
errors. -/
theorem ErrorMap_keys_are_the_recorded_keys (v : Validation) (m : Mem)
    (errs : List ValidationError)
    (hvalid : v.deref m = errs.map some) :
    ∃ mp, v.ErrorMap m = some (mp, v, m)
      ∧ (∀ k : String, k ∈ mp.map Prod.fst ↔ ∃ e ∈ errs, e.Key = k)
      ∧ (mp.map Prod.fst).Nodup
      ∧ (mp = [] ↔ v.HasErrors = false)
      ∧ mp.length ≤ v.Errors.length
      ∧ mp.length ≤ errs.length := by
  obtain ⟨mp, hmp, hlook⟩ := ErrorMap.loop_lookup m v.Errors errs [] hvalid
  obtain ⟨mp2, hmp2, hlen, hnd, hnil⟩ := ErrorMap.loop_shape m v.Errors errs [] hvalid
  have hsame : mp2 = mp := by
    rw [hmp] at hmp2
    exact (Option.some.inj hmp2).symm
  subst hsame
  have hlens : v.Errors.length = errs.length := by
    have := congrArg List.length hvalid
    simpa [Validation.deref] using this
  refine ⟨mp2, ?_, ?_, hnd (by simp), ?_, by simpa using hlen, ?_⟩
  · simp [Validation.ErrorMap, hmp]
  · intro k
    have hiff : k ∈ mp2.map Prod.fst ↔ (mp2.lookup k).isSome = true := by
      rw [List.lookup_isSome_iff]
      simp only [List.mem_map, beq_iff_eq]
      constructor
      · rintro ⟨p, hp, rfl⟩
        exact ⟨p, hp, rfl⟩
      · rintro ⟨p, hp, hk⟩
        exact ⟨p, hp, hk.symm⟩
    rw [hiff, hlook k]
    simp only [List.lookup_nil, Option.none_or, Option.isSome_map', List.find?_isSome,
      beq_iff_eq]
  · constructor
    · intro h
      have := (hnil h).2
      simp [Validation.HasErrors, this]
    · intro h
      have hv : v.Errors = [] := by
        simpa [Validation.HasErrors] using h
      rw [hv] at hmp
      simpa [Validation.ErrorMap.loop] using hmp.symm
  · rw [← hlens]
    simpa using hlen

/-- Three recorded errors, two with key "name" and one without a key. -/
theorem ErrorMap_keys_are_the_recorded_keys_witness :
    Validation.deref ⟨[0, 1, 2], false⟩
        ⟨[⟨"first", "name"⟩, ⟨"other", ""⟩, ⟨"second", "name"⟩], []⟩
      = [(⟨"first", "name"⟩ : ValidationError), ⟨"other", ""⟩, ⟨"second", "name"⟩].map some
    ∧ ∃ mp, Validation.ErrorMap ⟨[0, 1, 2], false⟩
          ⟨[⟨"first", "name"⟩, ⟨"other", ""⟩, ⟨"second", "name"⟩], []⟩
        = some (mp, ⟨[0, 1, 2], false⟩,
            ⟨[⟨"first", "name"⟩, ⟨"other", ""⟩, ⟨"second", "name"⟩], []⟩)
      ∧ (∀ k : String, k ∈ mp.map Prod.fst
          ↔ ∃ e ∈ [(⟨"first", "name"⟩ : ValidationError), ⟨"other", ""⟩, ⟨"second", "name"⟩],
              e.Key = k)
      ∧ (mp.map Prod.fst).Nodup
      ∧ (mp = [] ↔ Validation.HasErrors ⟨[0, 1, 2], false⟩ = false)
      ∧ mp.length ≤ (⟨[0, 1, 2], false⟩ : Validation).Errors.length
      ∧ mp.length
          ≤ [(⟨"first", "name"⟩ : ValidationError), ⟨"other", ""⟩, ⟨"second", "name"⟩].length :=
  ⟨by decide,
    ErrorMap_keys_are_the_recorded_keys ⟨[0, 1, 2], false⟩
      ⟨[⟨"first", "name"⟩, ⟨"other", ""⟩, ⟨"second", "name"⟩], []⟩
      [⟨"first", "name"⟩, ⟨"other", ""⟩, ⟨"second", "name"⟩] (by decide)⟩

/-! ## `AddEscapeString` -/

/-- Replacing a one-character `old` rewrites the string character by character. -/
theorem Replace.scan_single (c : Char) (new : List Char) :
    ∀ l : List Char, Replace.scan [c] new 0 l = l.flatMap (fun x => if x = c then new else [x]) := by
  intro l
  induction l with
  | nil => rfl
  | cons x xs ih =>
    simp only [Replace.scan, List.isPrefixOf, List.length_singleton, Nat.sub_self,
      List.flatMap_cons, ih]
    by_cases h : x = c
    · subst h; simp
    · have h2 : (c == x) = false := by simpa using fun h2 => h h2.symm
      simp [h, h2]

/-- One pass of `AddEscapeString`: a backslash before each occurrence of `c`. -/
theorem Replace_single (s : String) (c : Char) :
    Replace s (String.singleton c) ("\\" ++ String.singleton c)
      = ⟨s.data.flatMap (fun x => if x = c then [Char.ofNat 92, c] else [x])⟩ := by
  have h1 : String.singleton c ≠ "\\" ++ String.singleton c := by
    intro h
    have := congrArg String.length h
    simp only [String.length_append] at this
    have h0 : ("\\" : String).length = 1 := by decide
    omega
  have h2 : (String.singleton c).data ≠ [] := by
    simp [String.singleton]
  have h3 : ("\\" ++ String.singleton c).data = [Char.ofNat 92, c] := by
    simp [String.data_append]
  unfold Replace
  rw [if_neg h1, if_neg h2, h3]
  have h4 : (String.singleton c).data = [c] := by simp
  rw [h4, Replace.scan_single]

/-- A pass for a new character, other than the backslash, after the passes for `done`
does not touch what those passes inserted. -/
theorem escape_pass_step (done : List Char) (c : Char) (hc : c ≠ Char.ofNat 92) (hnd : c ∉ done)
    (l : List Char) :
    (l.flatMap (fun x => if x ∈ done then [Char.ofNat 92, x] else [x])).flatMap
        (fun x => if x = c then [Char.ofNat 92, c] else [x])
      = l.flatMap (fun x => if x ∈ done ++ [c] then [Char.ofNat 92, x] else [x]) := by
  induction l with
  | nil => rfl
  | cons x xs ih =>
    simp only [List.flatMap_cons, List.flatMap_append, ih]
    congr 1
    by_cases hx : x ∈ done
    · have hxc : x ≠ c := fun h => hnd (h ▸ hx)
      simp [hx, hxc, Ne.symm hc]
    · by_cases hxc : x = c
      · subst hxc; simp [hx]
      · simp [hx, hxc]

/-- Passes for distinct characters other than the backslash add up to one pass. -/
theorem escape_pass_fold (l : List Char) :
    ∀ (cs done : List Char), (∀ c ∈ cs, c ≠ Char.ofNat 92) → (done ++ cs).Nodup →
      cs.foldl (fun acc c => acc.flatMap (fun x => if x = c then [Char.ofNat 92, c] else [x]))
          (l.flatMap (fun x => if x ∈ done then [Char.ofNat 92, x] else [x]))
        = l.flatMap (fun x => if x ∈ done ++ cs then [Char.ofNat 92, x] else [x]) := by
  intro cs
  induction cs with
  | nil => intro done _ _; simp
  | cons c cs ih =>
    intro done hbs hnd
    have hc : c ≠ Char.ofNat 92 := hbs c (List.mem_cons_self _ _)
    have hcd : c ∉ done := by
      intro h
      have := List.nodup_append.mp hnd
      exact this.2.2 h (List.mem_cons_self _ _)
    simp only [List.foldl_cons]
    rw [escape_pass_step done c hc hcd l, ih (done ++ [c]) (fun x hx => hbs x (List.mem_cons_of_mem _ hx))
      (by simpa [List.append_assoc] using hnd)]
    simp [List.append_assoc]

/-- A pass adds one character for each character it escapes. -/
theorem escape_pass_length (done : List Char) (l : List Char) :
    (l.flatMap (fun x => if x ∈ done then [Char.ofNat 92, x] else [x])).length
      = l.length + l.countP (fun x => decide (x ∈ done)) := by
  induction l with
  | nil => rfl
  | cons x xs ih =>
    simp only [List.flatMap_cons, List.length_append, ih, List.length_cons, List.countP_cons]
    by_cases hx : x ∈ done
    · simp [hx]; omega
    · simp [hx]; omega

/-- A pass adds one byte for each character it escapes. -/
theorem escape_pass_utf8Len (done : List Char) (l : List Char) :
    String.utf8Len (l.flatMap (fun x => if x ∈ done then [Char.ofNat 92, x] else [x]))
      = String.utf8Len l + l.countP (fun x => decide (x ∈ done)) := by
  induction l with
  | nil => rfl
  | cons x xs ih =>
    have h92 : (Char.ofNat 92).utf8Size = 1 := by decide
    simp only [List.flatMap_cons, List.countP_cons, String.utf8Len_append, String.utf8Len_cons,
      ih]
    by_cases hx : x ∈ done
    · simp [hx, h92]; omega
    · simp [hx]; omega

/-- The passes of `AddEscapeString`, on the characters of the string. -/
theorem Replace_fold (cs : List Char) :
    ∀ s : String,
      cs.foldl (fun target c => Replace target (String.singleton c) ("\\" ++ String.singleton c)) s
        = ⟨cs.foldl (fun acc c => acc.flatMap (fun x => if x = c then [Char.ofNat 92, c] else [x]))
            s.data⟩ := by
  induction cs with
  | nil => intro s; rfl
  | cons c cs ih =>
    intro s
    rw [List.foldl_cons, Replace_single, ih]
    rfl

/-- The backslash is the first character escaped. -/
theorem escapedChars_split : escapedChars = Char.ofNat 92 :: "+*$()^][?.".data := by decide

/-- The eleven passes of `AddEscapeString` amount to the single pass. -/
theorem AddEscapeString_data (t : String) :
    (AddEscapeString t).data
      = t.data.flatMap (fun c => if c ∈ escapedChars then [Char.ofNat 92, c] else [c]) := by
  have hsc : specialChars = escapedChars.map String.singleton := by decide
  unfold AddEscapeString
  rw [hsc, List.foldl_map, Replace_fold]
  simp only
  rw [escapedChars_split, List.foldl_cons]
  have h0 : (t.data.flatMap (fun x => if x = Char.ofNat 92 then [Char.ofNat 92, Char.ofNat 92] else [x]))
      = t.data.flatMap (fun x => if x ∈ [Char.ofNat 92] then [Char.ofNat 92, x] else [x]) := by
    apply List.flatMap_congr
    intro x _
    by_cases hx : x = Char.ofNat 92
    · subst hx; simp
    · simp [hx]
  rw [h0, escape_pass_fold t.data "+*$()^][?.".data [Char.ofNat 92] (by decide) (by decide)]
  rfl

/-- C20: `AddEscapeString(t)`, eleven replace-all passes starting with the backslash, is
the single pass that puts one backslash before each occurrence in `t` of the characters
`\ + * $ ( ) ^ ] [ ? .` and copies the rest; backslashes a pass inserts are not escaped
by a later pass, and the output is longer than the input by the number of such
characters, in characters and in bytes. -/
theorem AddEscapeString_is_single_pass (t : String) :
    AddEscapeString t = escapeSinglePass t
    ∧ (AddEscapeString t).length
        = t.length + t.data.countP (fun c => decide (c ∈ escapedChars))
    ∧ len (AddEscapeString t)
        = len t + (t.data.countP (fun c => decide (c ∈ escapedChars)) : Nat) := by
  have hdata := AddEscapeString_data t
  refine ⟨?_, ?_, ?_⟩
  · rw [String.ext_iff, hdata]
    rfl
  · simp only [String.length, hdata, escape_pass_length]
  · have hb : (AddEscapeString t).utf8ByteSize = String.utf8Len (AddEscapeString t).data := rfl
    have ht : t.utf8ByteSize = String.utf8Len t.data := rfl
    simp only [len, hb, ht, hdata, escape_pass_utf8Len]
    push_cast
    rfl

example : AddEscapeString "a.b\\c" = "a\\.b\\\\c" := by decide

example : escapeSinglePass "(1+1)*2?" = "\\(1\\+1\\)\\*2\\?" := by decide

end utils
